import Mathlib

/-!
# Verification of the eventhorizon MongoDB event-store core

A shallow embedding of the event-store write/read/tail protocol:

* `EventHorizon.ModelA` — the single-collection store
  (`eventstore/mongodb`): one document per aggregate holding its events
  as an embedded list (`Save`, `Load`, precondition checks).
* `EventHorizon.ModelB` — the normalized store (`eventstore/mongodb_v2`):
  one events collection keyed by a global position, one streams
  collection, and the `$all` counter document, written inside one
  transaction (`Save`, `Load`, `Replace`).
* `EventHorizon.Tailer` — the change-feed loop
  (`BasicMongoDB.listenForChanges` in `mongodb_factory.go`) as a state
  machine over a finite script of environment steps.
* `EventHorizon.ErrChan` — the buffered error channel created by
  `NewMongoDBWithClient` (`make(chan error, 10)`).

Modelling conventions: machine integers are `Int` (no overflow is
reachable at the modelled scales, except for the driver's int32 id
marshalling which is modelled explicitly), BSON (de)serialization is the
identity on an opaque `Option String` payload, `map[string]interface{}`
metadata is an association list with integer values (the only value the
store itself writes is the integer position), and the optional
post-commit event handler is not configured (the default of
`NewEventStoreWithClient`).
-/

namespace EventHorizon

/-- Opaque 128-bit stream identifier (`uuid.UUID`). -/
abbrev UUID := Nat

/-- Association-list metadata (`map[string]interface{}`; a Go `nil` map and
an empty map both collapse to `[]`). -/
abbrev Metadata := List (String × Int)

/-- Go map assignment `m[k] = v`: overwrite the binding when the key is
present, otherwise add it (Go maps are key-unique, so at most one
binding per key ever exists). -/
def setMeta (m : Metadata) (k : String) (v : Int) : Metadata :=
  match m with
  | [] => [(k, v)]
  | p :: rest => if p.1 == k then (k, v) :: rest else p :: setMeta rest k v

/-- Go map read `m[k]`. -/
def lookupMeta (m : Metadata) (k : String) : Option Int :=
  (m.find? (fun p => p.1 == k)).map (fun p => p.2)

/-- An in-memory domain event (`eh.Event`): the accessors
`EventType/Data/Timestamp/AggregateType/AggregateID/Version/Metadata`. -/
structure Event where
  eventType : String
  data : Option String
  timestamp : Int
  aggregateType : String
  aggregateID : UUID
  version : Int
  metadata : Metadata
deriving DecidableEq, Repr

/-- Causes that abort the model B `Save` transaction body. -/
inductive TxErr where
  /-- `could not insert events: ...` (duplicate `_id`/position). -/
  | couldNotInsertEvents
  /-- `inserted event %s at pos %d not found` (the `InsertedIDs` check). -/
  | insertedEventNotFound (id : UUID) (pos : Int)
  /-- `could not insert stream: ...` (duplicate stream `_id`). -/
  | couldNotInsertStream
deriving DecidableEq, Repr

/-- Errors of the store, one constructor per distinct `eh` error value
produced by the embedded code paths (`fmt.Errorf` wrappers that only add
message text are collapsed onto the wrapped value). -/
inductive Err where
  /-- `eh.ErrMissingEvents` (model A empty batch). -/
  | missingEvents
  /-- `eh.ErrNoEventsToAppend` (model B empty batch). -/
  | noEventsToAppend
  /-- `eh.ErrMismatchedEventAggregateIDs` (model A). -/
  | mismatchedEventAggregateIDs
  /-- `eh.ErrMismatchedEventAggregateTypes` (model A). -/
  | mismatchedEventAggregateTypes
  /-- `eh.ErrInvalidEvent` (model B id mismatch). -/
  | invalidEvent
  /-- `eh.ErrIncorrectEventVersion` (both models). -/
  | incorrectEventVersion
  /-- `eh.ErrEventConflictFromOtherSave` (model A `MatchedCount == 0`). -/
  | eventConflictFromOtherSave
  /-- Model A `could not insert: ...` (duplicate `_id` on `InsertOne`). -/
  | couldNotInsert
  /-- `eh.ErrAggregateNotFound`. -/
  | aggregateNotFound
  /-- `eh.ErrEventNotFound`. -/
  | eventNotFound
  /-- Model B `eh.ErrCouldNotSaveEvents` wrapping the transaction abort. -/
  | couldNotSaveEvents (base : TxErr)
deriving DecidableEq, Repr

/-- Replace the first element satisfying `p` by `f` of it (MongoDB
`UpdateOne`: at most one document is updated). -/
def updateFirst (p : α → Bool) (f : α → α) : List α → List α
  | [] => []
  | x :: xs => if p x then f x :: xs else x :: updateFirst p f xs

/-- Replace the first element satisfying `p` by `y` (MongoDB
`ReplaceOne`: at most one document is replaced). -/
def replaceFirst (p : α → Bool) (y : α) : List α → List α
  | [] => []
  | x :: xs => if p x then y :: xs else x :: replaceFirst p y xs

end EventHorizon

namespace EventHorizon.ModelA

/-- The persisted event record of model A (`evt` in
`eventstore/mongodb/eventstore.go`). -/
structure Evt where
  eventType : String
  rawData : Option String
  timestamp : Int
  aggregateType : String
  aggregateID : UUID
  version : Int
  metadata : Metadata
deriving DecidableEq, Repr

/-- `newEvt`: build the DB record for an event (`bson.Marshal` of the
payload modelled as the identity). -/
def newEvt (e : Event) : Evt :=
  { eventType := e.eventType
    rawData := e.data
    timestamp := e.timestamp
    aggregateType := e.aggregateType
    aggregateID := e.aggregateID
    version := e.version
    metadata := e.metadata }

/-- The per-aggregate document (`aggregateRecord`). -/
structure AggregateRecord where
  aggregateID : UUID
  version : Int
  events : List Evt
deriving DecidableEq, Repr

/-- The model A `events` collection: one document per aggregate, keyed by
the unique `_id` (= aggregate id). -/
abbrev Store := List AggregateRecord

/-- The precondition loop of model A `Save`: every event must carry the
first event's aggregate id and type, and version
`originalVersion + i + 1` at 0-based offset `i`. -/
def saveValidate (id : UUID) (at_ : String) (originalVersion : Int) :
    Nat → List Event → Option Err
  | _, [] => none
  | i, e :: rest =>
    if e.aggregateID ≠ id then some .mismatchedEventAggregateIDs
    else if e.aggregateType ≠ at_ then some .mismatchedEventAggregateTypes
    else if e.version ≠ originalVersion + (i : Int) + 1 then
      some .incorrectEventVersion
    else saveValidate id at_ originalVersion (i + 1) rest

/-- `FindOne({_id: id})` on the aggregates collection. -/
def findOne (st : Store) (id : UUID) : Option AggregateRecord :=
  st.find? (fun a => a.aggregateID == id)

/-- Model A `EventStore.Save`. Returns the collection state after the
call together with the error, if any. `InsertOne` of a fresh aggregate
document fails on the unique `_id` index when a document for the
aggregate already exists; `UpdateOne` is matched on
`{_id: id, version: originalVersion}` and pushes the events while
incrementing `version` by the batch size; `MatchedCount == 0` yields
`eh.ErrEventConflictFromOtherSave`. -/
def Save (st : Store) (events : List Event) (originalVersion : Int) :
    Store × Option Err :=
  match events with
  | [] => (st, some .missingEvents)
  | e0 :: _ =>
    let id := e0.aggregateID
    let at_ := e0.aggregateType
    match saveValidate id at_ originalVersion 0 events with
    | some err => (st, some err)
    | none =>
      let dbEvents := events.map newEvt
      if originalVersion = 0 then
        if st.any (fun a => a.aggregateID == id) then
          (st, some .couldNotInsert)
        else
          (st ++ [{ aggregateID := id
                    version := (dbEvents.length : Int)
                    events := dbEvents }], none)
      else
        if st.any (fun a => a.aggregateID == id && a.version == originalVersion) then
          (updateFirst (fun a => a.aggregateID == id && a.version == originalVersion)
            (fun a =>
              { a with
                version := a.version + (dbEvents.length : Int)
                events := a.events ++ dbEvents }) st, none)
        else
          (st, some .eventConflictFromOtherSave)

/-- Decode a stored record back into an `eh.Event` (`CreateEventData`
plus `bson.Unmarshal`, modelled as the identity on the opaque payload). -/
def decodeEvt (e : Evt) : Event :=
  { eventType := e.eventType
    data := e.rawData
    timestamp := e.timestamp
    aggregateType := e.aggregateType
    aggregateID := e.aggregateID
    version := e.version
    metadata := e.metadata }

/-- Model A `EventStore.Load`: `FindOne({_id: id})`, translating
`mongo.ErrNoDocuments` to `eh.ErrAggregateNotFound`, then decode the
embedded list in stored order. -/
def Load (st : Store) (id : UUID) : Except Err (List Event) :=
  match findOne st id with
  | none => .error .aggregateNotFound
  | some aggregate => .ok (aggregate.events.map decodeEvt)

end EventHorizon.ModelA

namespace EventHorizon.ModelB

/-- The persisted event record of model B (`evt` in
`eventstore/mongodb_v2`); `position` is stored as the document `_id`. -/
structure Evt where
  position : Int
  eventType : String
  timestamp : Int
  aggregateType : String
  aggregateID : UUID
  version : Int
  rawData : Option String
  metadata : Metadata
deriving DecidableEq, Repr

/-- `newEvt` of model B: build the DB record for an event; a `nil`
metadata map is replaced by an empty one (both are `[]` here), and the
payload marshalling is the identity. `Position` is assigned later,
inside the transaction. -/
def newEvt (e : Event) : Evt :=
  { position := 0
    eventType := e.eventType
    timestamp := e.timestamp
    aggregateType := e.aggregateType
    aggregateID := e.aggregateID
    version := e.version
    rawData := e.data
    metadata := e.metadata }

/-- A stream-tracking document (`stream`), keyed by the aggregate id. -/
structure StreamRec where
  id : UUID
  position : Int
  aggregateType : String
  version : Int
  updatedAt : Int
deriving DecidableEq, Repr

/-- The model B store: the events collection (documents keyed by the
unique `_id` = position; the list order models the unspecified cursor
order of an unsorted `Find`), the streams collection, and the `$all`
counter document. The counter lives in the streams collection under the
string `_id` `"$all"`, which cannot collide with a UUID key, so it is
carried as its own field; `ensureAllStream` guarantees it exists. -/
structure Store where
  allPosition : Int
  events : List Evt
  streams : List StreamRec
deriving DecidableEq, Repr

/-- The precondition loop of model B `Save`: every event must carry the
first event's aggregate id (`eh.ErrInvalidEvent` otherwise) and version
`originalVersion + i + 1` at 0-based offset `i`
(`eh.ErrIncorrectEventVersion` otherwise). Unlike model A, the aggregate
type is not checked. -/
def saveValidate (id : UUID) (originalVersion : Int) :
    Nat → List Event → Option Err
  | _, [] => none
  | i, e :: rest =>
    if e.aggregateID ≠ id then some .invalidEvent
    else if e.version ≠ originalVersion + (i : Int) + 1 then
      some .incorrectEventVersion
    else saveValidate id originalVersion (i + 1) rest

/-- The position-assignment loop of the `Save` transaction: event `i`
(0-based, counting from `k`) receives position `base + i + 1`, mirrored
into its metadata under `"position"`. -/
def assignPositions (base : Int) : Nat → List Evt → List Evt
  | _, [] => []
  | i, e :: rest =>
    { e with
      position := base + (i : Int) + 1
      metadata := setMeta e.metadata "position" (base + (i : Int) + 1) }
      :: assignPositions base (i + 1) rest

/-- Build the new stream-tracking document from the batch's last event. -/
def mkStream (e : Evt) : StreamRec :=
  { id := e.aggregateID
    position := e.position
    aggregateType := e.aggregateType
    version := e.version
    updatedAt := e.timestamp }

/-- `InsertMany` on the events collection: ordered single inserts, each
rejected by the unique `_id` index when the position is already taken
("This natively prevents duplicate events to be written"). -/
def insertMany (coll : List Evt) : List Evt → Except TxErr (List Evt)
  | [] => .ok coll
  | e :: rest =>
    if coll.any (fun x => x.position == e.position) then
      .error .couldNotInsertEvents
    else insertMany (coll ++ [e]) rest

/-- Whether an integer survives the Go driver round trip as an `int32`
document id; the code's type assertion `id.(int32)` succeeds exactly for
values in this range. -/
def fitsInt32 (p : Int) : Bool :=
  -2147483648 ≤ p && p < 2147483648

/-- The post-insert check that every event got its requested id: each
event's position must occur among the returned `InsertedIDs`, read back
through the `int32` type assertion. -/
def verifyInsertedIDs (dbEvents : List Evt) (insertedIDs : List Int) :
    Option TxErr :=
  match dbEvents.find?
      (fun e => !(insertedIDs.any (fun p => fitsInt32 p && e.position == p))) with
  | some e => some (.insertedEventNotFound e.aggregateID e.position)
  | none => none

/-- The body of the model B `Save` transaction
(`sess.WithTransaction`): fetch-and-increment the `$all` counter (the
`FindOneAndUpdate` returns the pre-update document, so `base` is the
pre-increment value), assign positions, insert the events, verify the
inserted ids, then insert or update the stream document. The returned
store is the transaction's candidate state; an error aborts the whole
transaction. -/
def saveTx (st : Store) (dbEvents : List Evt) (originalVersion : Int) :
    Except TxErr Store :=
  let base := st.allPosition
  let bumped : Store := { st with allPosition := st.allPosition + (dbEvents.length : Int) }
  let assigned := assignPositions base 0 dbEvents
  match assigned.getLast? with
  | none => .ok bumped
  | some lastEvt =>
    let strm := mkStream lastEvt
    match insertMany bumped.events assigned with
    | .error e => .error e
    | .ok events' =>
      match verifyInsertedIDs assigned (assigned.map (fun e => e.position)) with
      | some e => .error e
      | none =>
        if originalVersion = 0 then
          if bumped.streams.any (fun s => s.id == strm.id) then
            .error .couldNotInsertStream
          else
            .ok { bumped with events := events', streams := bumped.streams ++ [strm] }
        else
          if bumped.streams.any (fun s => s.id == strm.id) then
            .ok { bumped with
                  events := events'
                  streams := updateFirst (fun s => s.id == strm.id)
                    (fun s =>
                      { s with
                        position := strm.position
                        version := strm.version
                        updatedAt := strm.updatedAt }) bumped.streams }
          else
            -- `FindOneAndUpdate` with upsert: the inserted document is
            -- built from the filter (`_id`) plus the `$set` fields, so
            -- `aggregate_type` is absent (its decoded zero value is "").
            .ok { bumped with
                  events := events'
                  streams := bumped.streams ++
                    [{ id := strm.id
                       position := strm.position
                       aggregateType := ""
                       version := strm.version
                       updatedAt := strm.updatedAt }] }

/-- Model B `EventStore.Save`: empty-batch check, precondition loop,
then the transaction; a transaction abort is wrapped in
`eh.ErrCouldNotSaveEvents` and, by `WithTransaction` semantics, rolls
back every write of the body, so the store is returned unchanged. -/
def Save (st : Store) (events : List Event) (originalVersion : Int) :
    Store × Option Err :=
  match events with
  | [] => (st, some .noEventsToAppend)
  | e0 :: _ =>
    match saveValidate e0.aggregateID originalVersion 0 events with
    | some err => (st, some err)
    | none =>
      match saveTx st (events.map newEvt) originalVersion with
      | .error e => (st, some (.couldNotSaveEvents e))
      | .ok st' => (st', none)

/-- Decode a stored record back into an `eh.Event` (again the identity
on the opaque payload); the stored position survives only through the
metadata mirror, since `eh.Event` has no position field. -/
def decodeEvt (e : Evt) : Event :=
  { eventType := e.eventType
    data := e.rawData
    timestamp := e.timestamp
    aggregateType := e.aggregateType
    aggregateID := e.aggregateID
    version := e.version
    metadata := e.metadata }

/-- Model B `EventStore.Load`: `Find({aggregate_id: id})` with no sort
option and no not-found translation — the cursor is decoded in the order
the store returns it, and an unknown stream yields `ok` with an empty
list. -/
def Load (st : Store) (id : UUID) : Except Err (List Event) :=
  .ok ((st.events.filter (fun e => e.aggregateID == id)).map decodeEvt)

/-- Model B `EventStore.Replace` (`eventmaintenance.go`): inside one
transaction, count the stream's events (`eh.ErrAggregateNotFound` when
zero), locate the record at `(aggregate_id, version)`
(`eh.ErrEventNotFound` when absent), copy its position into the
replacement (and into the metadata mirror), then `ReplaceOne` on the
same filter. Errors are wrapped in an `eh.EventStoreError` with
`Op = Replace`, which preserves the inner error value. -/
def Replace (st : Store) (event : Event) : Store × Option Err :=
  let id := event.aggregateID
  if (st.events.filter (fun e => e.aggregateID == id)).length = 0 then
    (st, some .aggregateNotFound)
  else
    let e := newEvt event
    match st.events.find?
        (fun x => x.aggregateID == id && x.version == event.version) with
    | none => (st, some .eventNotFound)
    | some eventToReplace =>
      let e' := { e with
                  position := eventToReplace.position
                  metadata := setMeta e.metadata "position" eventToReplace.position }
      ({ st with
         events := replaceFirst
           (fun x => x.aggregateID == id && x.version == event.version)
           e' st.events }, none)

end EventHorizon.ModelB

namespace EventHorizon.Tailer

/-!
The change-feed loop `BasicMongoDB.listenForChanges`
(`mongodb_factory.go`). Each pass of its `for` loop: a `select` on
`db.cctx.Done()` (the connection-wide cancellation created in
`NewMongoDBWithClient` and fired by `Close`) whose `default` branch
opens `Watch` with the caller's `opts` (the variadic
`ChangeStreamOptions` fixed at the `CollectionWatchChangeStream` call),
sleeps one second and retries when the open fails, and otherwise
forwards each received record to `changeChan`, pushes a stream error to
`db.errChan`, writes `stream.ResumeToken()` through the caller's
`resumeToken` pointer, closes the stream and loops. Returning runs the
deferred `close(changeChan)` and `closeWG.Done()`.

The loop is modelled as a state machine over a finite script of
environment steps, records are identified by their global commit
position, and the opaque resume tokens by the position of the record
they point at. A change stream opened with a resume token replays every
record committed after that position and then the live ones; a stream
opened without a token sees only records committed after the open.
-/

/-- One pass of the environment: whether `db.cctx` is done at the
`select`, whether `Watch` succeeds, the positions committed since the
previous stream ended (visible to a resumed stream but already missed
by a token-less open), the positions committed while this stream is
open, and whether the stream ends with a non-nil `stream.Err()`. -/
structure IterEnv where
  ctxDone : Bool
  openOk : Bool
  whileDown : List Int
  whileOpen : List Int
  errOnEnd : Bool
deriving DecidableEq, Repr

/-- Observable actions of the loop, in program order. -/
inductive Act where
  /-- `Watch` succeeded; `tok` is the resume token it was opened with. -/
  | opened (tok : Option Int)
  /-- A record was sent on `changeChan`. -/
  | delivered (pos : Int)
  /-- A stream error was pushed onto `db.errChan`. -/
  | errSent
  /-- `time.Sleep(time.Second)` after a failed `Watch`. -/
  | sleptBackoff
  /-- The deferred `close(changeChan)` ran: the loop returned. -/
  | closedChan
deriving DecidableEq, Repr

/-- Loop-carried state: the oplog of all committed positions, and the
value last written through the caller's `resumeToken` pointer. -/
structure LoopState where
  log : List Int
  savedToken : Option Int
deriving DecidableEq, Repr

/-- The records a freshly opened stream returns, in commit order. -/
def visibleRecords (log : List Int) (whileOpen : List Int) :
    Option Int → List Int
  | some p => log.filter (fun q => p < q) ++ whileOpen
  | none => whileOpen

/-- One non-cancelled pass of the loop. `optsToken` is the token inside
the caller's `opts`, which the code passes to every `Watch` unchanged —
the loop never reads `savedToken` back. When the stream returned at
least one record, `stream.ResumeToken()` points at the last of them;
when it returned none, the opaque post-batch token is abstracted as the
previously saved value (the claims settled here only exercise streams
that delivered something). -/
def runIter (optsToken : Option Int) (s : LoopState) (env : IterEnv) :
    LoopState × List Act :=
  let log1 := s.log ++ env.whileDown
  if !env.openOk then
    ({ s with log := log1 ++ env.whileOpen }, [Act.sleptBackoff])
  else
    let vis := visibleRecords log1 env.whileOpen optsToken
    let tok' := match vis.getLast? with
                | some p => some p
                | none => s.savedToken
    ({ log := log1 ++ env.whileOpen, savedToken := tok' },
      Act.opened optsToken :: vis.map Act.delivered ++
        (if env.errOnEnd then [Act.errSent] else []))

/-- Run the loop over a finite prefix of environment passes, collecting
the action trace and the final loop state. A pass whose `select` sees
`db.cctx.Done()` returns, which closes the delivery channel; an
exhausted script just stops observing a still-running loop. -/
def runAux (optsToken : Option Int) :
    LoopState → List IterEnv → List Act × LoopState
  | s, [] => ([], s)
  | s, env :: rest =>
    if env.ctxDone then ([Act.closedChan], s)
    else
      let (s', acts) := runIter optsToken s env
      let (acts', s'') := runAux optsToken s' rest
      (acts ++ acts', s'')

/-- The initial loop state: empty oplog, and the caller's resume-token
variable still holding the token it passed in `opts`. -/
def initState (optsToken : Option Int) : LoopState :=
  { log := [], savedToken := optsToken }

/-- The observable trace of `listenForChanges` on a script. -/
def trace (optsToken : Option Int) (script : List IterEnv) : List Act :=
  (runAux optsToken (initState optsToken) script).1

/-- The final loop state of `listenForChanges` on a script. -/
def finalState (optsToken : Option Int) (script : List IterEnv) : LoopState :=
  (runAux optsToken (initState optsToken) script).2

/-- The resume tokens of the `opened` actions of a trace, in order. -/
def openedTokens : List Act → List (Option Int)
  | [] => []
  | .opened t :: r => t :: openedTokens r
  | _ :: r => openedTokens r

/-- The positions of the `delivered` actions of a trace, in order. -/
def deliveredPositions : List Act → List Int
  | [] => []
  | .delivered p :: r => p :: deliveredPositions r
  | _ :: r => deliveredPositions r

/-- The number of failed `Watch` attempts before the loop is cancelled. -/
def failedOpens : List IterEnv → Nat
  | [] => 0
  | env :: rest =>
    if env.ctxDone then 0
    else (if !env.openOk then 1 else 0) + failedOpens rest

end EventHorizon.Tailer

namespace EventHorizon.ErrChan

/-- The buffer capacity of `db.errChan`, from
`make(chan error, 10)` in `NewMongoDBWithClient`. -/
def capacity : Nat := 10

/-- A Go send `db.errChan <- e` with no concurrent receiver: it
completes immediately while the buffer has free space and blocks the
sender otherwise (`none`). -/
def send (buf : List String) (e : String) : Option (List String) :=
  if buf.length < capacity then some (buf ++ [e]) else none

end EventHorizon.ErrChan

namespace EventHorizon

/-- Read the stream-tracking document with `_id = id`. -/
def ModelB.findStream (l : List ModelB.StreamRec) (id : UUID) :
    Option ModelB.StreamRec :=
  l.find? (fun s => s.id == id)

/-- Whether an error is one of the typed `Save` precondition errors
(mismatched ids, mismatched types, invalid event, incorrect version). -/
def Err.isPrecondition : Err → Bool
  | .mismatchedEventAggregateIDs => true
  | .mismatchedEventAggregateTypes => true
  | .invalidEvent => true
  | .incorrectEventVersion => true
  | _ => false

/-- The number of backoff sleeps in a trace. -/
def Tailer.countBackoff : List Tailer.Act → Nat
  | [] => 0
  | .sleptBackoff :: r => 1 + Tailer.countBackoff r
  | _ :: r => Tailer.countBackoff r

end EventHorizon

namespace EventHorizon.Fix

/-- A sample event on stream 1 of type "A". -/
def e (v : Int) : Event :=
  { eventType := "t", data := some "d", timestamp := 7, aggregateType := "A",
    aggregateID := 1, version := v, metadata := [] }

/-- A sample event on stream 1 of aggregate type "B" with a distinct
payload. -/
def eT (v : Int) : Event :=
  { eventType := "t", data := some "q", timestamp := 7, aggregateType := "B",
    aggregateID := 1, version := v, metadata := [] }

/-- The model A store after `Save([e 1, e 2], 0)` on an empty store. -/
def stA2 : ModelA.Store := (ModelA.Save [] [e 1, e 2] 0).1

/-- The empty model B store (fresh deployment after `ensureAllStream`). -/
def stB0 : ModelB.Store := { allPosition := 0, events := [], streams := [] }

/-- The model B store after `Save([e 1, e 2], 0)` on a fresh store. -/
def stB2 : ModelB.Store := (ModelB.Save stB0 [e 1, e 2] 0).1

/-- The same document set as `stB2`, with the events collection listed
in the cursor order (version 2 first): an unsorted `Find` may return
the two documents in either order. -/
def stB2rev : ModelB.Store :=
  { allPosition := stB2.allPosition
    events := stB2.events.reverse
    streams := stB2.streams }

/-- The model B store after `Save([e 1], 0)` then `Save([e 2, e 3], 1)`
on a fresh store: stream 1 at version 3, positions 1–3. -/
def stB3 : ModelB.Store :=
  (ModelB.Save (ModelB.Save stB0 [e 1] 0).1 [e 2, e 3] 1).1

/-- A replacement for the version-2 event of `stB2`: the same envelope
(type, timestamp, aggregate type, metadata as loaded, with the mirrored
position) but a new payload. -/
def e2q : Event :=
  { eventType := "t", data := some "q", timestamp := 7, aggregateType := "A",
    aggregateID := 1, version := 2, metadata := [("position", 2)] }

/-- Tailer pass: `Watch` opens, delivers positions 1 and 2, then the
stream dies with an error. -/
def iter1 : Tailer.IterEnv :=
  { ctxDone := false, openOk := true, whileDown := [], whileOpen := [1, 2],
    errOnEnd := true }

/-- Tailer pass: position 3 was committed while the subscription was
down; the re-opened stream then sees position 4 committed live. -/
def iter2 : Tailer.IterEnv :=
  { ctxDone := false, openOk := true, whileDown := [3], whileOpen := [4],
    errOnEnd := false }

/-- The two-pass tailer script of `iter1` then `iter2`. -/
def script2 : List Tailer.IterEnv := [iter1, iter2]

end EventHorizon.Fix


namespace EventHorizon

/-! ### Helper lemmas about the embedded primitives -/

/-- Writing a metadata key makes it readable back. -/
theorem lookupMeta_setMeta (k : String) (v : Int) :
    ∀ m : Metadata, lookupMeta (setMeta m k v) k = some v := by
  intro m
  induction m with
  | nil => simp [setMeta, lookupMeta]
  | cons p rest ih =>
    by_cases hp : (p.1 == k) = true
    · simp [setMeta, hp, lookupMeta]
    · simp only [setMeta, hp, Bool.false_eq_true, if_false, lookupMeta]
      rw [List.find?_cons_of_neg _ (by simpa using hp)]
      exact ih

/-- Re-writing the binding a key already has leaves the map unchanged. -/
theorem setMeta_self (k : String) (v : Int) :
    ∀ m : Metadata, lookupMeta m k = some v → setMeta m k v = m := by
  intro m
  induction m with
  | nil => simp [lookupMeta]
  | cons p rest ih =>
    intro hl
    by_cases hp : (p.1 == k) = true
    · have hkey : p.1 = k := by simpa using hp
      have hval : p.2 = v := by
        simp only [lookupMeta, List.find?_cons, hp, cond_true] at hl
        simpa using hl
      simp [setMeta, hp, ← hkey, ← hval]
    · have hl' : lookupMeta rest k = some v := by
        simpa only [lookupMeta, List.find?_cons, hp, cond_false] using hl
      simp [setMeta, hp, ih hl']

theorem updateFirst_length (p : α → Bool) (f : α → α) :
    ∀ l : List α, (updateFirst p f l).length = l.length := by
  intro l
  induction l with
  | nil => rfl
  | cons x xs ih =>
    by_cases hx : p x <;> simp [updateFirst, hx, ih]

theorem replaceFirst_length (p : α → Bool) (y : α) :
    ∀ l : List α, (replaceFirst p y l).length = l.length := by
  intro l
  induction l with
  | nil => rfl
  | cons x xs ih =>
    by_cases hx : p x <;> simp [replaceFirst, hx, ih]

/-- An element the update predicate rejects survives the update. -/
theorem mem_updateFirst_of_not (p : α → Bool) (f : α → α) :
    ∀ l : List α, ∀ x ∈ l, p x = false → x ∈ updateFirst p f l := by
  intro l
  induction l with
  | nil => simp
  | cons a xs ih =>
    intro x hx hpx
    by_cases ha : p a
    · rcases List.mem_cons.mp hx with h | h
      · subst h; rw [hpx] at ha; cases ha
      · simp [updateFirst, ha, h]
    · rcases List.mem_cons.mp hx with h | h
      · simp [updateFirst, ha, h]
      · simp [updateFirst, ha, ih x h hpx]

/-- Finding by a predicate the update function preserves, after updating
by the same predicate, yields the image of the original find. -/
theorem find?_updateFirst (p : α → Bool) (f : α → α)
    (hf : ∀ x, p x = true → p (f x) = true) :
    ∀ l : List α, (updateFirst p f l).find? p = (l.find? p).map f := by
  intro l
  induction l with
  | nil => rfl
  | cons x xs ih =>
    by_cases hx : p x = true
    · simp only [updateFirst, hx, if_true]
      rw [List.find?_cons_of_pos _ (hf x hx), List.find?_cons_of_pos _ hx]
      rfl
    · simp only [updateFirst, hx, Bool.false_eq_true, if_false]
      rw [List.find?_cons_of_neg _ (by simpa using hx),
        List.find?_cons_of_neg _ (by simpa using hx)]
      exact ih

/-- Finding by the replacement predicate after a successful replacement
yields the replacement, provided it satisfies the predicate. -/
theorem find?_replaceFirst (p : α → Bool) (y : α) (hy : p y = true) :
    ∀ l : List α, (l.find? p).isSome → (replaceFirst p y l).find? p = some y := by
  intro l
  induction l with
  | nil => simp
  | cons x xs ih =>
    intro hfound
    by_cases hx : p x = true
    · simp only [replaceFirst, hx, if_true]
      rw [List.find?_cons_of_pos _ hy]
    · simp only [replaceFirst, hx, Bool.false_eq_true, if_false]
      rw [List.find?_cons_of_neg _ (by simpa using hx)]
      rw [List.find?_cons_of_neg _ (by simpa using hx)] at hfound
      exact ih hfound

/-- Replacement by an element with the same measure keeps the measures. -/
theorem map_replaceFirst (p : α → Bool) (y : α) (g : α → β)
    (hm : ∀ x, p x = true → g x = g y) :
    ∀ l : List α, (replaceFirst p y l).map g = l.map g := by
  intro l
  induction l with
  | nil => rfl
  | cons x xs ih =>
    by_cases hx : p x = true
    · simp [replaceFirst, hx, hm x hx]
    · simp [replaceFirst, hx, ih]

/-- Pairs of the self-zip are diagonal. -/
theorem zip_self_eq : ∀ (l : List α), ∀ pr ∈ l.zip l, pr.1 = pr.2 := by
  intro l
  induction l with
  | nil => simp
  | cons x xs ih =>
    intro pr hpr
    rcases List.mem_cons.mp hpr with h | h
    · rw [h]
    · exact ih pr h

/-- Zipping a list with its replacement: pairs whose left component the
predicate rejects are unchanged. -/
theorem zip_replaceFirst (p : α → Bool) (y : α) :
    ∀ l : List α, ∀ pr ∈ l.zip (replaceFirst p y l),
      p pr.1 = false → pr.2 = pr.1 := by
  intro l
  induction l with
  | nil => simp
  | cons x xs ih =>
    intro pr hpr hp
    by_cases hx : p x = true
    · simp only [replaceFirst, hx, if_true, List.zip_cons_cons] at hpr
      rcases List.mem_cons.mp hpr with h | h
      · rw [h] at hp; rw [hp] at hx; cases hx
      · exact ((zip_self_eq xs pr h)).symm
    · simp only [replaceFirst, hx, Bool.false_eq_true, if_false,
        List.zip_cons_cons] at hpr
      rcases List.mem_cons.mp hpr with h | h
      · rw [h]
      · exact ih pr h hp

end EventHorizon

namespace EventHorizon

/-! ### Lemmas about the `Save` building blocks -/

/-- A batch that passes the model A precondition loop started at offset
`k` carries the expected id, type and versions. -/
theorem saveValidateA_none (id : UUID) (at_ : String) (ov : Int) :
    ∀ (l : List Event) (k : Nat), ModelA.saveValidate id at_ ov k l = none →
      ∀ i (h : i < l.length),
        (l.get ⟨i, h⟩).aggregateID = id ∧
        (l.get ⟨i, h⟩).aggregateType = at_ ∧
        (l.get ⟨i, h⟩).version = ov + ((k + i : Nat) : Int) + 1 := by
  intro l
  induction l with
  | nil => intro k _ i h; cases h
  | cons e rest ih =>
    intro k hval i h
    unfold ModelA.saveValidate at hval
    by_cases h1 : e.aggregateID ≠ id
    · simp [h1] at hval
    · by_cases h2 : e.aggregateType ≠ at_
      · simp [h1, h2] at hval
      · by_cases h3 : e.version ≠ ov + (k : Int) + 1
        · simp [h1, h2, h3] at hval
        · simp only [if_neg h1, if_neg h2, if_neg h3] at hval
          cases i with
          | zero =>
            refine ⟨not_not.mp h1, not_not.mp h2, ?_⟩
            simpa using not_not.mp h3
          | succ j =>
            have hj : j < rest.length := Nat.lt_of_succ_lt_succ h
            have hres := ih (k + 1) hval j hj
            have hstep : (e :: rest).get ⟨j + 1, h⟩ = rest.get ⟨j, hj⟩ := rfl
            rw [hstep]
            refine ⟨hres.1, hres.2.1, ?_⟩
            rw [hres.2.2]
            push_cast
            ring

/-- The model A precondition loop only ever reports a typed
precondition error. -/
theorem saveValidateA_some (id : UUID) (at_ : String) (ov : Int) :
    ∀ (l : List Event) (k : Nat) (err : Err),
      ModelA.saveValidate id at_ ov k l = some err →
      err.isPrecondition = true := by
  intro l
  induction l with
  | nil => intro k err h; cases h
  | cons e rest ih =>
    intro k err h
    unfold ModelA.saveValidate at h
    by_cases h1 : e.aggregateID ≠ id
    · rw [if_pos h1] at h; cases h; rfl
    · rw [if_neg h1] at h
      by_cases h2 : e.aggregateType ≠ at_
      · rw [if_pos h2] at h; cases h; rfl
      · rw [if_neg h2] at h
        by_cases h3 : e.version ≠ ov + (k : Int) + 1
        · rw [if_pos h3] at h; cases h; rfl
        · rw [if_neg h3] at h; exact ih (k + 1) err h

/-- A batch that passes the model B precondition loop started at offset
`k` carries the expected id and versions. -/
theorem saveValidateB_none (id : UUID) (ov : Int) :
    ∀ (l : List Event) (k : Nat), ModelB.saveValidate id ov k l = none →
      ∀ i (h : i < l.length),
        (l.get ⟨i, h⟩).aggregateID = id ∧
        (l.get ⟨i, h⟩).version = ov + ((k + i : Nat) : Int) + 1 := by
  intro l
  induction l with
  | nil => intro k _ i h; cases h
  | cons e rest ih =>
    intro k hval i h
    unfold ModelB.saveValidate at hval
    by_cases h1 : e.aggregateID ≠ id
    · simp [h1] at hval
    · by_cases h3 : e.version ≠ ov + (k : Int) + 1
      · simp [h1, h3] at hval
      · simp only [if_neg h1, if_neg h3] at hval
        cases i with
        | zero =>
          refine ⟨not_not.mp h1, ?_⟩
          simpa using not_not.mp h3
        | succ j =>
          have hj : j < rest.length := Nat.lt_of_succ_lt_succ h
          have hres := ih (k + 1) hval j hj
          have hstep : (e :: rest).get ⟨j + 1, h⟩ = rest.get ⟨j, hj⟩ := rfl
          rw [hstep]
          refine ⟨hres.1, ?_⟩
          rw [hres.2]
          push_cast
          ring

/-- The model B precondition loop only ever reports a typed
precondition error. -/
theorem saveValidateB_some (id : UUID) (ov : Int) :
    ∀ (l : List Event) (k : Nat) (err : Err),
      ModelB.saveValidate id ov k l = some err →
      err.isPrecondition = true := by
  intro l
  induction l with
  | nil => intro k err h; cases h
  | cons e rest ih =>
    intro k err h
    unfold ModelB.saveValidate at h
    by_cases h1 : e.aggregateID ≠ id
    · rw [if_pos h1] at h; cases h; rfl
    · rw [if_neg h1] at h
      by_cases h3 : e.version ≠ ov + (k : Int) + 1
      · rw [if_pos h3] at h; cases h; rfl
      · rw [if_neg h3] at h; exact ih (k + 1) err h

/-- A successful ordered `InsertMany` appends exactly the batch. -/
theorem insertMany_ok :
    ∀ (l coll r : List ModelB.Evt),
      ModelB.insertMany coll l = .ok r → r = coll ++ l := by
  intro l
  induction l with
  | nil =>
    intro coll r h
    simp only [ModelB.insertMany] at h
    cases h
    simp
  | cons e rest ih =>
    intro coll r h
    simp only [ModelB.insertMany] at h
    by_cases hdup : coll.any (fun x => x.position == e.position) = true
    · rw [if_pos hdup] at h; cases h
    · rw [if_neg hdup] at h
      have hr := ih (coll ++ [e]) r h
      simp [hr]

theorem assignPositions_length (base : Int) :
    ∀ (l : List ModelB.Evt) (k : Nat),
      (ModelB.assignPositions base k l).length = l.length := by
  intro l
  induction l with
  | nil => intro k; rfl
  | cons e rest ih => intro k; simp [ModelB.assignPositions, ih]

/-- Elementwise description of the position-assignment loop. -/
theorem assignPositions_get (base : Int) :
    ∀ (l : List ModelB.Evt) (k i : Nat) (h : i < l.length)
      (h2 : i < (ModelB.assignPositions base k l).length),
      (ModelB.assignPositions base k l).get ⟨i, h2⟩ =
        { l.get ⟨i, h⟩ with
          position := base + ((k + i : Nat) : Int) + 1
          metadata := setMeta (l.get ⟨i, h⟩).metadata "position"
            (base + ((k + i : Nat) : Int) + 1) } := by
  intro l
  induction l with
  | nil => intro k i h; cases h
  | cons e rest ih =>
    intro k i h h2
    cases i with
    | zero => simp [ModelB.assignPositions]
    | succ j =>
      have hj : j < rest.length := Nat.lt_of_succ_lt_succ h
      have hj2 : j < (ModelB.assignPositions base (k + 1) rest).length := by
        rw [assignPositions_length]; exact hj
      have hstep : (ModelB.assignPositions base k (e :: rest)).get ⟨j + 1, h2⟩ =
          (ModelB.assignPositions base (k + 1) rest).get ⟨j, hj2⟩ := rfl
      rw [hstep, ih (k + 1) j hj hj2]
      have harith : ((k + 1 + j : Nat) : Int) = ((k + (j + 1) : Nat) : Int) := by
        push_cast; ring
      rw [harith]
      rfl

/-- Every output of the position-assignment loop comes from some batch
index. -/
theorem mem_assignPositions (base : Int) (l : List ModelB.Evt) (k : Nat) :
    ∀ x ∈ ModelB.assignPositions base k l, ∃ i, ∃ h : i < l.length,
      x = { l.get ⟨i, h⟩ with
            position := base + ((k + i : Nat) : Int) + 1
            metadata := setMeta (l.get ⟨i, h⟩).metadata "position"
              (base + ((k + i : Nat) : Int) + 1) } := by
  intro x hx
  rcases List.mem_iff_get.mp hx with ⟨⟨i, hi⟩, hget⟩
  have hi' : i < l.length := by
    rwa [assignPositions_length] at hi
  exact ⟨i, hi', by rw [← hget, assignPositions_get base l k i hi' hi]⟩

/-- A nonempty list's last element, as an indexed read. -/
theorem getLast?_of_ne_nil (l : List α) (h : l ≠ []) :
    ∃ hl : l.length - 1 < l.length,
      l.getLast? = some (l.get ⟨l.length - 1, hl⟩) := by
  have hlen : 0 < l.length := List.length_pos.mpr h
  refine ⟨by omega, ?_⟩
  rw [List.getLast?_eq_getLast l h, List.getLast_eq_getElem]
  simp [List.get_eq_getElem]

/-- Reading an aggregate after a version-matched `UpdateOne`, when the
collection keys are unique. -/
theorem findOne_updateFirst_nodup (id : UUID) (ov : Int)
    (f : ModelA.AggregateRecord → ModelA.AggregateRecord)
    (hf : ∀ a, (f a).aggregateID = a.aggregateID) :
    ∀ st : ModelA.Store, (st.map (fun a => a.aggregateID)).Nodup →
      ∀ rec, ModelA.findOne st id = some rec → rec.version = ov →
        ModelA.findOne
          (updateFirst (fun a => a.aggregateID == id && a.version == ov) f st) id
          = some (f rec) := by
  intro st
  induction st with
  | nil => intro _ rec h _; cases h
  | cons a rest ih =>
    intro hnd rec hfind hver
    by_cases ha : (a.aggregateID == id) = true
    · have hrec : rec = a := by
        simp only [ModelA.findOne, List.find?_cons, ha, cond_true] at hfind
        simpa using hfind.symm
      have hpa : (a.aggregateID == id && a.version == ov) = true := by
        simp [ha, show a.version = ov from hrec ▸ hver]
      simp only [updateFirst, hpa, if_true, ModelA.findOne, List.find?_cons,
        show ((f a).aggregateID == id) = true by rw [hf]; exact ha, cond_true]
      rw [hrec]
    · have hpa : (a.aggregateID == id && a.version == ov) = false := by
        simp [show (a.aggregateID == id) = false by simpa using ha]
      have hfind' : ModelA.findOne rest id = some rec := by
        simpa only [ModelA.findOne, List.find?_cons, ha, cond_false] using hfind
      have hnd' : (rest.map (fun a => a.aggregateID)).Nodup :=
        (List.nodup_cons.mp (by simpa using hnd)).2
      unfold updateFirst
      rw [if_neg (by simp [hpa])]
      simp only [ModelA.findOne, List.find?_cons, ha, cond_false]
      exact ih hnd' rec hfind' hver

end EventHorizon

namespace EventHorizon.Tailer

/-! ### Lemmas about the change-feed loop -/

theorem openedTokens_append :
    ∀ l1 l2 : List Act,
      openedTokens (l1 ++ l2) = openedTokens l1 ++ openedTokens l2 := by
  intro l1 l2
  induction l1 with
  | nil => rfl
  | cons a r ih => cases a <;> simp [openedTokens, ih]

theorem openedTokens_map_delivered :
    ∀ l : List Int, openedTokens (l.map Act.delivered) = [] := by
  intro l
  induction l with
  | nil => rfl
  | cons p r ih => simp [openedTokens, ih]

theorem countBackoff_append :
    ∀ l1 l2 : List Act,
      countBackoff (l1 ++ l2) = countBackoff l1 + countBackoff l2 := by
  intro l1 l2
  induction l1 with
  | nil => simp [countBackoff]
  | cons a r ih => cases a <;> simp [countBackoff, ih, Nat.add_assoc]

theorem countBackoff_map_delivered :
    ∀ l : List Int, countBackoff (l.map Act.delivered) = 0 := by
  intro l
  induction l with
  | nil => rfl
  | cons p r ih => simp [countBackoff, ih]

theorem closedChan_not_mem_map_delivered :
    ∀ l : List Int, Act.closedChan ∉ l.map Act.delivered := by
  intro l h
  rcases List.mem_map.mp h with ⟨p, _, hp⟩
  cases hp

/-- Every `opened` action of one loop pass carries the caller's token. -/
theorem runIter_openedTokens (tok : Option Int) (s : LoopState) (env : IterEnv) :
    ∀ t ∈ openedTokens (runIter tok s env).2, t = tok := by
  intro t ht
  unfold runIter at ht
  by_cases hok : env.openOk
  · simp only [hok, Bool.not_true, Bool.false_eq_true, if_false] at ht
    rw [show (Act.opened tok :: (visibleRecords (s.log ++ env.whileDown)
        env.whileOpen tok).map Act.delivered ++
        (if env.errOnEnd then [Act.errSent] else [])) =
        [Act.opened tok] ++ ((visibleRecords (s.log ++ env.whileDown)
        env.whileOpen tok).map Act.delivered ++
        (if env.errOnEnd then [Act.errSent] else [])) from rfl,
      openedTokens_append, openedTokens_append, openedTokens_map_delivered] at ht
    rcases List.mem_append.mp ht with h | h
    · simpa [openedTokens] using h
    · rcases List.mem_append.mp h with h' | h'
      · cases h'
      · by_cases he : env.errOnEnd <;> simp [he, openedTokens] at h'
  · simp only [hok, Bool.not_false, if_true] at ht
    simp [openedTokens] at ht

/-- One loop pass sleeps exactly when its `Watch` failed. -/
theorem runIter_countBackoff (tok : Option Int) (s : LoopState) (env : IterEnv) :
    countBackoff (runIter tok s env).2 = if env.openOk then 0 else 1 := by
  unfold runIter
  by_cases hok : env.openOk
  · simp only [hok, Bool.not_true, Bool.false_eq_true, if_false, if_true]
    rw [show (Act.opened tok :: (visibleRecords (s.log ++ env.whileDown)
        env.whileOpen tok).map Act.delivered ++
        (if env.errOnEnd then [Act.errSent] else [])) =
        [Act.opened tok] ++ ((visibleRecords (s.log ++ env.whileDown)
        env.whileOpen tok).map Act.delivered ++
        (if env.errOnEnd then [Act.errSent] else [])) from rfl,
      countBackoff_append, countBackoff_append, countBackoff_map_delivered]
    by_cases he : env.errOnEnd <;> simp [he, countBackoff]
  · simp [hok, countBackoff]

/-- One loop pass never closes the channel. -/
theorem runIter_no_closedChan (tok : Option Int) (s : LoopState) (env : IterEnv) :
    Act.closedChan ∉ (runIter tok s env).2 := by
  intro h
  unfold runIter at h
  by_cases hok : env.openOk
  · simp only [hok, Bool.not_true, Bool.false_eq_true, if_false] at h
    rcases List.mem_cons.mp h with h' | h'
    · cases h'
    · rcases List.mem_append.mp h' with h'' | h''
      · exact closedChan_not_mem_map_delivered _ h''
      · by_cases he : env.errOnEnd <;> simp [he] at h''
  · simp [hok] at h

/-- Every `opened` of a run carries the caller's token. -/
theorem runAux_openedTokens (tok : Option Int) :
    ∀ (script : List IterEnv) (s : LoopState),
      ∀ t ∈ openedTokens (runAux tok s script).1, t = tok := by
  intro script
  induction script with
  | nil => intro s t ht; cases ht
  | cons env rest ih =>
    intro s t ht
    unfold runAux at ht
    by_cases hc : env.ctxDone
    · simp only [hc, if_true] at ht
      simp [openedTokens] at ht
    · simp only [hc, Bool.false_eq_true, if_false] at ht
      rw [openedTokens_append] at ht
      rcases List.mem_append.mp ht with h | h
      · exact runIter_openedTokens tok s env t h
      · exact ih _ t h

/-- A run sleeps the fixed backoff exactly once per failed `Watch`. -/
theorem runAux_countBackoff (tok : Option Int) :
    ∀ (script : List IterEnv) (s : LoopState),
      countBackoff (runAux tok s script).1 = failedOpens script := by
  intro script
  induction script with
  | nil => intro s; rfl
  | cons env rest ih =>
    intro s
    unfold runAux failedOpens
    by_cases hc : env.ctxDone
    · simp [hc, countBackoff]
    · simp only [hc, Bool.false_eq_true, if_false]
      rw [countBackoff_append, runIter_countBackoff, ih]
      by_cases hok : env.openOk <;> simp [hok]

/-- The delivery channel is closed exactly when some pass of the script
saw the cancellation fire. -/
theorem runAux_closedChan (tok : Option Int) :
    ∀ (script : List IterEnv) (s : LoopState),
      Act.closedChan ∈ (runAux tok s script).1 ↔
        script.any (fun env => env.ctxDone) = true := by
  intro script
  induction script with
  | nil => intro s; simp [runAux]
  | cons env rest ih =>
    intro s
    unfold runAux
    by_cases hc : env.ctxDone
    · simp [hc]
    · simp only [hc, Bool.false_eq_true, if_false]
      constructor
      · intro h
        rcases List.mem_append.mp h with h' | h'
        · exact absurd h' (runIter_no_closedChan tok s env)
        · simp [hc, (ih _).mp h']
      · intro h
        have : rest.any (fun env => env.ctxDone) = true := by
          simpa [hc] using h
        exact List.mem_append.mpr (Or.inr ((ih _).mpr this))

end EventHorizon.Tailer

namespace EventHorizon

/-! ### C10 — empty batches are rejected -/

/-- C10: a `Save` call with an empty events list returns the typed
missing-events error (`eh.ErrMissingEvents` in model A,
`eh.ErrNoEventsToAppend` in model B) and performs no storage operation,
in both models. -/
theorem save_empty_batch_rejected (stA : ModelA.Store) (stB : ModelB.Store)
    (ov : Int) :
    ModelA.Save stA [] ov = (stA, some Err.missingEvents) ∧
    ModelB.Save stB [] ov = (stB, some Err.noEventsToAppend) :=
  ⟨rfl, rfl⟩

/-! ### C6 — loading an unknown stream -/

/-- C6 counterexample: model B `Load` of a stream with no stored events
returns `ok` with an empty list instead of the NotFound error the claim
demands for both models. -/
theorem loadB_missing_stream_cex :
    ModelB.Load { allPosition := 0, events := [], streams := [] } 5 =
      .ok [] := rfl

/-- C6 as amended: loading a stream id with no stored events yields
`eh.ErrAggregateNotFound` in model A, but in model B it yields a `nil`
event list with no error (model B `Load` performs no NotFound
translation). -/
theorem load_missing_stream (stA : ModelA.Store) (stB : ModelB.Store)
    (id : UUID) (hA : ∀ a ∈ stA, a.aggregateID ≠ id)
    (hB : ∀ e ∈ stB.events, e.aggregateID ≠ id) :
    ModelA.Load stA id = .error Err.aggregateNotFound ∧
    ModelB.Load stB id = .ok [] := by
  constructor
  · unfold ModelA.Load ModelA.findOne
    rw [List.find?_eq_none.mpr (fun a ha => by simpa using hA a ha)]
  · unfold ModelB.Load
    rw [List.filter_eq_nil_iff.mpr (fun e he => by simpa using hB e he)]
    rfl

/-- C6 witness: the amended statement at empty stores. -/
theorem load_missing_stream_witness :
    ModelA.Load ([] : ModelA.Store) 3 = .error Err.aggregateNotFound ∧
    ModelB.Load { allPosition := 0, events := [], streams := [] } 3 = .ok [] :=
  load_missing_stream [] { allPosition := 0, events := [], streams := [] } 3
    (by simp) (by simp)

/-! ### C4 — model B `Load` ordering -/

/-- C4 counterexample: `Fix.stB2rev` holds exactly the documents written
by `Save([e 1, e 2], 0)` (same multiset of events, same streams, same
counter), merely listed in the other cursor order, which an unsorted
`Find` is free to return; `Load` then yields versions `[2, 1]`, not the
explicitly version-ordered `[1, 2]` required by the claim. -/
theorem loadB_cursor_order_cex :
    Fix.stB2rev.events.Perm Fix.stB2.events ∧
    Fix.stB2rev.streams = Fix.stB2.streams ∧
    Fix.stB2rev.allPosition = Fix.stB2.allPosition ∧
    (ModelB.Load Fix.stB2rev 1).map (fun l => l.map (fun e => e.version)) =
      .ok [2, 1] := by
  refine ⟨by decide, rfl, rfl, rfl⟩

/-- C4 as amended: model B `Load` returns the stream's events decoded in
the order the backing store returns them — it applies no explicit
ordering by version, so the output version order is exactly the cursor
order. -/
theorem loadB_preserves_backing_order (st : ModelB.Store) (id : UUID)
    (l : List Event) (h : ModelB.Load st id = .ok l) :
    l.length = (st.events.filter (fun e => e.aggregateID == id)).length ∧
    l.map (fun e => e.version) =
      (st.events.filter (fun e => e.aggregateID == id)).map
        (fun e => e.version) := by
  have hl : l = (st.events.filter (fun e => e.aggregateID == id)).map
      ModelB.decodeEvt := by
    unfold ModelB.Load at h
    cases h
    rfl
  subst hl
  refine ⟨by simp, ?_⟩
  rw [List.map_map]
  rfl

/-- C4 witness: the amended statement at the concrete reversed-cursor
store. -/
theorem loadB_preserves_backing_order_witness :
    (((Fix.stB2rev.events.filter (fun e => e.aggregateID == 1)).map
        ModelB.decodeEvt).map (fun e => e.version)) =
      (Fix.stB2rev.events.filter (fun e => e.aggregateID == 1)).map
        (fun e => e.version) :=
  (loadB_preserves_backing_order Fix.stB2rev 1 _ rfl).2

/-! ### C9 — error reporting of the tailer -/

/-- C9 counterexample: with ten unconsumed errors already buffered and
no consumer reading, the eleventh push onto `db.errChan` blocks the
tailer indefinitely — the delivery is a plain Go channel send on a
buffer of capacity 10, not a drop-if-full send. -/
theorem errChan_send_blocks_cex :
    ErrChan.send (List.replicate 10 "stream error") "one more error" =
      none := rfl

/-- C9 as amended: a fatal stream error is pushed onto the dedicated
buffered error channel (capacity 10); the push completes without
blocking exactly while fewer than 10 errors are unconsumed and appends
the error to the buffer, and an error never terminates the tailer loop —
the loop only stops (closing its delivery channel) when the
connection-wide cancellation fires. -/
theorem errChan_buffered_reporting (buf : List String) (e : String)
    (tok : Option Int) (script : List Tailer.IterEnv) :
    ((ErrChan.send buf e).isSome ↔ buf.length < ErrChan.capacity) ∧
    (∀ buf', ErrChan.send buf e = some buf' → buf' = buf ++ [e]) ∧
    (Tailer.Act.closedChan ∈ Tailer.trace tok script ↔
      script.any (fun env => env.ctxDone) = true) := by
  refine ⟨?_, ?_, ?_⟩
  · unfold ErrChan.send
    by_cases h : buf.length < ErrChan.capacity <;> simp [h]
  · intro buf' h
    unfold ErrChan.send at h
    by_cases hl : buf.length < ErrChan.capacity
    · rw [if_pos hl] at h
      cases h
      rfl
    · rw [if_neg hl] at h
      cases h
  · exact Tailer.runAux_closedChan tok script _

/-- C9 witness: the amended statement at a one-slot buffer and a script
whose first pass is cancelled. -/
theorem errChan_buffered_reporting_witness :
    (["a", "b"] : List String) = ["a"] ++ ["b"] ∧
    Tailer.Act.closedChan ∈ Tailer.trace none
      [{ ctxDone := true, openOk := true, whileDown := [], whileOpen := [],
         errOnEnd := false }] :=
  have h := errChan_buffered_reporting ["a"] "b" none
    [{ ctxDone := true, openOk := true, whileDown := [], whileOpen := [],
       errOnEnd := false }]
  ⟨h.2.1 ["a", "b"] rfl, h.2.2.mpr (by decide)⟩

/-! ### C8 — tailer reconnection -/

/-- C8 counterexample: on the script `Fix.script2` the loop delivers up
to position 2 and the stream errors; the saved resume marker is `some 2`,
yet the loop re-opens immediately — there is no backoff action between
`errSent` and the second `opened` — and with the caller's original token
`none` rather than the saved marker, so position 3 (committed while the
subscription was down) is skipped even though position 4 is delivered
after it. -/
theorem tailer_reopen_cex :
    Tailer.trace none Fix.script2 =
      [Tailer.Act.opened none, Tailer.Act.delivered 1, Tailer.Act.delivered 2,
       Tailer.Act.errSent, Tailer.Act.opened none, Tailer.Act.delivered 4] ∧
    (Tailer.finalState none [Fix.iter1]).savedToken = some 2 ∧
    Tailer.deliveredPositions (Tailer.trace none Fix.script2) = [1, 2, 4] ∧
    (3 : Int) ∈ (Tailer.finalState none Fix.script2).log ∧
    (3 : Int) ∉ Tailer.deliveredPositions (Tailer.trace none Fix.script2) :=
  ⟨rfl, rfl, rfl, by decide, by decide⟩

/-- C8 as amended: when the connection-wide cancellation is signalled at
the top of a pass the loop stops and closes the delivery channel; on a
subscription error or stream end it re-opens immediately with the
caller's original options (every `opened` action carries the caller's
token — the saved resume marker is written back for the caller but never
used by the in-loop re-open), and the fixed one-second backoff is slept
exactly once per failed `Watch` attempt. -/
theorem tailer_loop_behavior (tok : Option Int) (env : Tailer.IterEnv)
    (rest : List Tailer.IterEnv) :
    (env.ctxDone = true →
      Tailer.trace tok (env :: rest) = [Tailer.Act.closedChan]) ∧
    (∀ t ∈ Tailer.openedTokens (Tailer.trace tok (env :: rest)), t = tok) ∧
    Tailer.countBackoff (Tailer.trace tok (env :: rest)) =
      Tailer.failedOpens (env :: rest) := by
  refine ⟨?_, ?_, ?_⟩
  · intro hc
    unfold Tailer.trace Tailer.runAux
    simp [hc]
  · exact Tailer.runAux_openedTokens tok (env :: rest) _
  · exact Tailer.runAux_countBackoff tok (env :: rest) _

/-- C8 witness: the amended statement at a cancelled first pass. -/
theorem tailer_loop_behavior_witness :
    Tailer.trace (some 9)
      [{ ctxDone := true, openOk := false, whileDown := [], whileOpen := [],
         errOnEnd := false }] = [Tailer.Act.closedChan] :=
  (tailer_loop_behavior (some 9)
    { ctxDone := true, openOk := false, whileDown := [], whileOpen := [],
      errOnEnd := false } []).1 rfl

end EventHorizon

namespace EventHorizon

/-! ### C5 — `Save` precondition checks -/

/-- C5 counterexample: a batch whose second event carries a different
aggregate type (but the same id and contiguous versions) is accepted by
model B `Save` — the store is mutated and no error is returned — because
the model B precondition loop never compares aggregate types. -/
theorem saveB_type_mismatch_cex :
    (Fix.e 1).aggregateID = (Fix.eT 2).aggregateID ∧
    (Fix.e 1).aggregateType ≠ (Fix.eT 2).aggregateType ∧
    (ModelB.Save Fix.stB0 [Fix.e 1, Fix.eT 2] 0).2 = none ∧
    (ModelB.Save Fix.stB0 [Fix.e 1, Fix.eT 2] 0).1 ≠ Fix.stB0 :=
  ⟨rfl, by decide, rfl, by decide⟩

/-- C5 as amended: model A fails fast with a typed error and an
unchanged store when some event has a different stream id, a different
stream type, or a version other than `originalVersion` plus its 1-based
offset; model B does the same for the id and version checks only — an
aggregate-type mismatch alone is not rejected there. -/
theorem save_preconditions (stA : ModelA.Store) (stB : ModelB.Store)
    (e0 : Event) (rest : List Event) (ov : Int) :
    ((∃ x ∈ e0 :: rest, x.aggregateID ≠ e0.aggregateID) ∨
      (∃ x ∈ e0 :: rest, x.aggregateType ≠ e0.aggregateType) ∨
      (∃ i, ∃ h : i < (e0 :: rest).length,
        ((e0 :: rest).get ⟨i, h⟩).version ≠ ov + (i : Int) + 1) →
      (ModelA.Save stA (e0 :: rest) ov).1 = stA ∧
      ∃ err, (ModelA.Save stA (e0 :: rest) ov).2 = some err ∧
        err.isPrecondition = true) ∧
    ((∃ x ∈ e0 :: rest, x.aggregateID ≠ e0.aggregateID) ∨
      (∃ i, ∃ h : i < (e0 :: rest).length,
        ((e0 :: rest).get ⟨i, h⟩).version ≠ ov + (i : Int) + 1) →
      (ModelB.Save stB (e0 :: rest) ov).1 = stB ∧
      ∃ err, (ModelB.Save stB (e0 :: rest) ov).2 = some err ∧
        err.isPrecondition = true) := by
  constructor
  · intro hviol
    cases hval : ModelA.saveValidate e0.aggregateID e0.aggregateType ov 0 (e0 :: rest) with
    | some err =>
      have hsave : ModelA.Save stA (e0 :: rest) ov = (stA, some err) := by
        simp only [ModelA.Save, hval]
      exact ⟨by rw [hsave], err, by rw [hsave],
        saveValidateA_some _ _ _ _ _ err hval⟩
    | none =>
      exfalso
      have hall := saveValidateA_none e0.aggregateID e0.aggregateType ov
        (e0 :: rest) 0 hval
      rcases hviol with ⟨x, hx, hne⟩ | ⟨x, hx, hne⟩ | ⟨i, h, hne⟩
      · rcases List.mem_iff_get.mp hx with ⟨⟨i, hi⟩, hget⟩
        exact hne (by rw [← hget]; exact (hall i hi).1)
      · rcases List.mem_iff_get.mp hx with ⟨⟨i, hi⟩, hget⟩
        exact hne (by rw [← hget]; exact (hall i hi).2.1)
      · exact hne (by simpa using (hall i h).2.2)
  · intro hviol
    cases hval : ModelB.saveValidate e0.aggregateID ov 0 (e0 :: rest) with
    | some err =>
      have hsave : ModelB.Save stB (e0 :: rest) ov = (stB, some err) := by
        simp only [ModelB.Save, hval]
      exact ⟨by rw [hsave], err, by rw [hsave],
        saveValidateB_some _ _ _ _ err hval⟩
    | none =>
      exfalso
      have hall := saveValidateB_none e0.aggregateID ov (e0 :: rest) 0 hval
      rcases hviol with ⟨x, hx, hne⟩ | ⟨i, h, hne⟩
      · rcases List.mem_iff_get.mp hx with ⟨⟨i, hi⟩, hget⟩
        exact hne (by rw [← hget]; exact (hall i hi).1)
      · exact hne (by simpa using (hall i h).2)

/-- C5 witness: the amended statement at a batch whose second event
repeats version 1. -/
theorem save_preconditions_witness :
    ((ModelA.Save [] [Fix.e 1, Fix.e 1] 0).1 = ([] : ModelA.Store) ∧
      ∃ err, (ModelA.Save [] [Fix.e 1, Fix.e 1] 0).2 = some err ∧
        err.isPrecondition = true) ∧
    ((ModelB.Save Fix.stB0 [Fix.e 1, Fix.e 1] 0).1 = Fix.stB0 ∧
      ∃ err, (ModelB.Save Fix.stB0 [Fix.e 1, Fix.e 1] 0).2 = some err ∧
        err.isPrecondition = true) := by
  have h := save_preconditions [] Fix.stB0 (Fix.e 1) [Fix.e 1] 0
  exact ⟨h.1 (Or.inr (Or.inr ⟨1, by decide, by decide⟩)),
    h.2 (Or.inr ⟨1, by decide, by decide⟩)⟩

end EventHorizon

namespace EventHorizon

/-! ### C1 — model A append protocol -/

/-- C1 counterexample: on a stream that already has a record (version 2
from `[e 1, e 2]`), a `Save` with `originalVersion = 0` does not insert
a new stream record and does not report a version conflict: a
version-correct batch `[e 1]` dies on the unique `_id` index with the
insert error, and the spec's own scenario `Save([e3(v=2)], 0)` dies
already in the precondition loop with `eh.ErrIncorrectEventVersion`. -/
theorem saveA_insert_existing_cex :
    ModelA.Save Fix.stA2 [Fix.e 1] 0 = (Fix.stA2, some Err.couldNotInsert) ∧
    ModelA.Save Fix.stA2 [Fix.e 2] 0 =
      (Fix.stA2, some Err.incorrectEventVersion) :=
  ⟨rfl, rfl⟩

/-- C1 as amended: for a batch passing the precondition loop,
`originalVersion = 0` makes `Save` attempt the insert of a new stream
record whose version is the batch size — succeeding exactly when no
record for the stream id exists, and otherwise failing on the unique
`_id` index with the insert error (not a version conflict) and leaving
the store unchanged; `originalVersion > 0` performs the conditional
update matched on `(stream id, version = originalVersion)`, which
appends the events and increments the version by the batch size, and
with zero matching records `Save` returns
`eh.ErrEventConflictFromOtherSave` with the store unchanged. -/
theorem saveA_branches (st : ModelA.Store) (e0 : Event) (rest : List Event)
    (ov : Int)
    (hval : ModelA.saveValidate e0.aggregateID e0.aggregateType ov 0
      (e0 :: rest) = none) :
    (ov = 0 → (∀ a ∈ st, a.aggregateID ≠ e0.aggregateID) →
      ModelA.Save st (e0 :: rest) ov =
        (st ++ [{ aggregateID := e0.aggregateID
                  version := ((e0 :: rest).length : Int)
                  events := (e0 :: rest).map ModelA.newEvt }], none)) ∧
    (ov = 0 → (∃ a ∈ st, a.aggregateID = e0.aggregateID) →
      ModelA.Save st (e0 :: rest) ov = (st, some Err.couldNotInsert)) ∧
    (0 < ov → (st.map (fun a => a.aggregateID)).Nodup →
      ∀ rec, ModelA.findOne st e0.aggregateID = some rec → rec.version = ov →
      ∃ st', ModelA.Save st (e0 :: rest) ov = (st', none) ∧
        ModelA.findOne st' e0.aggregateID = some
          { rec with
            version := rec.version + ((e0 :: rest).length : Int)
            events := rec.events ++ (e0 :: rest).map ModelA.newEvt } ∧
        st'.length = st.length ∧
        (∀ a ∈ st, a.aggregateID ≠ e0.aggregateID → a ∈ st')) ∧
    (0 < ov → (∀ a ∈ st, ¬(a.aggregateID = e0.aggregateID ∧ a.version = ov)) →
      ModelA.Save st (e0 :: rest) ov =
        (st, some Err.eventConflictFromOtherSave)) := by
  refine ⟨?_, ?_, ?_, ?_⟩
  · intro h0 hfresh
    subst h0
    have hany : st.any (fun a => a.aggregateID == e0.aggregateID) = false :=
      List.any_eq_false.mpr (fun a ha => by simpa using hfresh a ha)
    simp [ModelA.Save, hval, hany]
  · intro h0 hexists
    subst h0
    have hany : st.any (fun a => a.aggregateID == e0.aggregateID) = true := by
      rcases hexists with ⟨a, ha, he⟩
      exact List.any_eq_true.mpr ⟨a, ha, by simpa using he⟩
    simp [ModelA.Save, hval, hany]
  · intro hpos hnd rec hfind hver
    have hne : ¬(ov = 0) := by omega
    have hfind' := hfind
    unfold ModelA.findOne at hfind'
    have hbeq := List.find?_some hfind'
    have hany : st.any
        (fun a => a.aggregateID == e0.aggregateID && a.version == ov) = true := by
      refine List.any_eq_true.mpr ⟨rec, List.mem_of_find?_eq_some hfind', ?_⟩
      simp [hver]
      simpa using hbeq
    refine ⟨updateFirst
      (fun a => a.aggregateID == e0.aggregateID && a.version == ov)
      (fun a => { a with
        version := a.version + ((e0 :: rest).length : Int)
        events := a.events ++ (e0 :: rest).map ModelA.newEvt }) st,
      ?_, ?_, ?_, ?_⟩
    · simp [ModelA.Save, hval, hne, hany]
    · exact findOne_updateFirst_nodup e0.aggregateID ov
        (fun a => { a with
          version := a.version + ((e0 :: rest).length : Int)
          events := a.events ++ (e0 :: rest).map ModelA.newEvt })
        (fun a => rfl) st hnd rec hfind hver
    · exact updateFirst_length _ _ st
    · intro a ha hne'
      exact mem_updateFirst_of_not _ _ st a ha (by simp [hne'])
  · intro hpos hnone
    have hne : ¬(ov = 0) := by omega
    have hany : st.any
        (fun a => a.aggregateID == e0.aggregateID && a.version == ov) = false := by
      refine List.any_eq_false.mpr (fun a ha => ?_)
      intro hc
      simp only [Bool.and_eq_true] at hc
      exact hnone a ha ⟨by simpa using hc.1, by simpa using hc.2⟩
    simp [ModelA.Save, hval, hne, hany]

/-- C1 witness: the amended statement exercised at a fresh insert, a
successful conditional update, and a zero-match version conflict. -/
theorem saveA_branches_witness :
    ModelA.Save [] [Fix.e 1, Fix.e 2] 0 = (Fix.stA2, none) ∧
    (ModelA.Save Fix.stA2 [Fix.e 3] 2).2 = none ∧
    ModelA.Save Fix.stA2 [Fix.e 2] 1 =
      (Fix.stA2, some Err.eventConflictFromOtherSave) := by
  refine ⟨?_, ?_, ?_⟩
  · exact (saveA_branches [] (Fix.e 1) [Fix.e 2] 0 (by decide)).1 rfl (by simp)
  · rcases (saveA_branches Fix.stA2 (Fix.e 3) [] 2 (by decide)).2.2.1
      (by norm_num) (by decide) _ rfl rfl with ⟨st', hs, _⟩
    rw [hs]
  · exact (saveA_branches Fix.stA2 (Fix.e 2) [] 1 (by decide)).2.2.2
      (by norm_num) (by decide)

end EventHorizon

namespace EventHorizon

/-! ### The successful model B transaction -/

/-- Full characterization of a committed model B `Save` transaction: the
counter is bumped by the batch size, the events collection is extended
by exactly the position-assigned batch, and the stream document read
back for the batch's stream id carries the last assigned position and
the last event's version, while unrelated stream documents survive. -/
theorem saveTx_ok_spec (st : ModelB.Store) (dbEvents : List ModelB.Evt)
    (ov : Int) (stc : ModelB.Store) (hne : dbEvents ≠ [])
    (htx : ModelB.saveTx st dbEvents ov = .ok stc) :
    stc.allPosition = st.allPosition + (dbEvents.length : Int) ∧
    stc.events = st.events ++ ModelB.assignPositions st.allPosition 0 dbEvents ∧
    ∃ lastEvt,
      (ModelB.assignPositions st.allPosition 0 dbEvents).getLast? =
        some lastEvt ∧
      (∃ strm, ModelB.findStream stc.streams lastEvt.aggregateID = some strm ∧
        strm.position = lastEvt.position ∧ strm.version = lastEvt.version) ∧
      (∀ s ∈ st.streams, s.id ≠ lastEvt.aggregateID → s ∈ stc.streams) := by
  have hne' : ModelB.assignPositions st.allPosition 0 dbEvents ≠ [] := by
    intro hnil
    have hlen := assignPositions_length st.allPosition dbEvents 0
    rw [hnil] at hlen
    exact hne (List.length_eq_zero.mp hlen.symm)
  simp only [ModelB.saveTx, ModelB.mkStream] at htx
  split at htx
  · next heq => exact absurd heq (by simp [hne'])
  · next lastEvt heq =>
    split at htx
    · next e heq2 => cases htx
    · next events' heq2 =>
      have hins := insertMany_ok _ _ _ heq2
      split at htx
      · next e heq3 => cases htx
      · next heq3 =>
        by_cases h0 : ov = 0
        · rw [if_pos h0] at htx
          by_cases hany :
              (st.streams.any (fun s => s.id == lastEvt.aggregateID)) = true
          · rw [if_pos hany] at htx
            cases htx
          · rw [if_neg hany] at htx
            simp only [Except.ok.injEq] at htx
            subst htx
            have hanyF :
                (st.streams.any (fun s => s.id == lastEvt.aggregateID)) = false := by
              simpa using hany
            have hnone :
                st.streams.find? (fun s => s.id == lastEvt.aggregateID) = none :=
              List.find?_eq_none.mpr (List.any_eq_false.mp hanyF)
            refine ⟨by simp, by simpa using hins, lastEvt, heq, ?_, ?_⟩
            · refine ⟨⟨lastEvt.aggregateID, lastEvt.position, lastEvt.aggregateType, lastEvt.version, lastEvt.timestamp⟩, ?_, rfl, rfl⟩
              unfold ModelB.findStream
              rw [List.find?_append, hnone, Option.none_or]
              simp
            · intro s hs _
              exact List.mem_append_left _ hs
        · rw [if_neg h0] at htx
          by_cases hany :
              (st.streams.any (fun s => s.id == lastEvt.aggregateID)) = true
          · rw [if_pos hany] at htx
            simp only [Except.ok.injEq] at htx
            subst htx
            have hsome : (st.streams.find?
                (fun s => s.id == lastEvt.aggregateID)).isSome = true :=
              List.find?_isSome.mpr (List.any_eq_true.mp hany)
            rcases Option.isSome_iff_exists.mp hsome with ⟨s0, hs0⟩
            refine ⟨by simp, by simpa using hins, lastEvt, heq, ?_, ?_⟩
            · refine ⟨⟨s0.id, lastEvt.position, s0.aggregateType, lastEvt.version, lastEvt.timestamp⟩, ?_, rfl, rfl⟩
              unfold ModelB.findStream
              rw [find?_updateFirst _ _ (fun x hx => by simpa using hx), hs0]
              rfl
            · intro s hs hne2
              exact mem_updateFirst_of_not _ _ _ s hs (by simpa using hne2)
          · rw [if_neg hany] at htx
            simp only [Except.ok.injEq] at htx
            subst htx
            have hanyF :
                (st.streams.any (fun s => s.id == lastEvt.aggregateID)) = false := by
              simpa using hany
            have hnone :
                st.streams.find? (fun s => s.id == lastEvt.aggregateID) = none :=
              List.find?_eq_none.mpr (List.any_eq_false.mp hanyF)
            refine ⟨by simp, by simpa using hins, lastEvt, heq, ?_, ?_⟩
            · refine ⟨⟨lastEvt.aggregateID, lastEvt.position, "", lastEvt.version, lastEvt.timestamp⟩, ?_, rfl, rfl⟩
              unfold ModelB.findStream
              rw [List.find?_append, hnone, Option.none_or]
              simp
            · intro s hs _
              exact List.mem_append_left _ hs

end EventHorizon

namespace EventHorizon

/-- The last output of the position-assignment loop: the last input with
position `base + k + length` (mirrored into its metadata). -/
theorem assignPositions_getLast (base : Int) :
    ∀ (l : List ModelB.Evt) (k : Nat), l ≠ [] →
      ∃ e, l.getLast? = some e ∧
        (ModelB.assignPositions base k l).getLast? = some
          { e with
            position := base + ((k + l.length : Nat) : Int)
            metadata := setMeta e.metadata "position"
              (base + ((k + l.length : Nat) : Int)) } := by
  intro l
  induction l with
  | nil => intro k h; exact absurd rfl h
  | cons e tl ih =>
    intro k _
    cases tl with
    | nil =>
      refine ⟨e, rfl, ?_⟩
      simp only [ModelB.assignPositions, List.getLast?_singleton,
        Option.some.injEq]
      have : ((k : Int)) + 1 = ((k + 1 : Nat) : Int) := by push_cast; ring
      rw [show base + (k : Int) + 1 = base + ((k + 1 : Nat) : Int) by push_cast; ring]
      simp [List.length_cons, List.length_nil]
    | cons f tl' =>
      obtain ⟨e', he1, he2⟩ := ih (k + 1) (by simp)
      refine ⟨e', ?_, ?_⟩
      · rw [List.getLast?_cons_cons]
        exact he1
      · have hstep : (ModelB.assignPositions base k (e :: f :: tl')).getLast? =
            (ModelB.assignPositions base (k + 1) (f :: tl')).getLast? := by
          simp only [ModelB.assignPositions]
          rw [List.getLast?_cons_cons]
        rw [hstep, he2]
        have : ((k + 1 + (f :: tl').length : Nat) : Int) =
            ((k + (e :: f :: tl').length : Nat) : Int) := by
          push_cast
          simp [List.length_cons]
          ring
        rw [this]

/-- The last event of a batch passing the model B precondition loop:
it carries the expected id and the final version. -/
theorem saveValidateB_getLast (id : UUID) (ov : Int) :
    ∀ (l : List Event) (k : Nat), ModelB.saveValidate id ov k l = none →
      l ≠ [] →
      ∃ e, l.getLast? = some e ∧ e.aggregateID = id ∧
        e.version = ov + ((k + l.length : Nat) : Int) := by
  intro l
  induction l with
  | nil => intro k _ h; exact absurd rfl h
  | cons e tl ih =>
    intro k hval _
    unfold ModelB.saveValidate at hval
    by_cases h1 : e.aggregateID ≠ id
    · simp [h1] at hval
    · by_cases h3 : e.version ≠ ov + (k : Int) + 1
      · simp [h1, h3] at hval
      · simp only [if_neg h1, if_neg h3] at hval
        cases tl with
        | nil =>
          refine ⟨e, rfl, not_not.mp h1, ?_⟩
          rw [not_not.mp h3]
          simp only [List.length_cons, List.length_nil]
          push_cast
          ring
        | cons f tl' =>
          obtain ⟨e', he1, he2, he3⟩ := ih (k + 1) hval (by simp)
          refine ⟨e', ?_, he2, ?_⟩
          · rw [List.getLast?_cons_cons]
            exact he1
          · rw [he3]
            have : ((k + 1 + (f :: tl').length : Nat) : Int) =
                ((k + (e :: f :: tl').length : Nat) : Int) := by
              push_cast
              simp [List.length_cons]
              ring
            rw [this]

end EventHorizon

namespace EventHorizon

/-- Full characterization of a successful model B `Save` at the level of
the public operation: preconditions passed, the counter is bumped by the
batch size, the events collection gains exactly the position-assigned
batch, and the stream document for the batch's id records the last
assigned position and the final version. -/
theorem saveB_ok_spec (st : ModelB.Store) (e0 : Event) (rest : List Event)
    (ov : Int) (st' : ModelB.Store)
    (hS : ModelB.Save st (e0 :: rest) ov = (st', none)) :
    ModelB.saveValidate e0.aggregateID ov 0 (e0 :: rest) = none ∧
    st'.allPosition = st.allPosition + ((e0 :: rest).length : Int) ∧
    st'.events = st.events ++
      ModelB.assignPositions st.allPosition 0 ((e0 :: rest).map ModelB.newEvt) ∧
    (∃ strm, ModelB.findStream st'.streams e0.aggregateID = some strm ∧
      strm.position = st.allPosition + ((e0 :: rest).length : Int) ∧
      strm.version = ov + ((e0 :: rest).length : Int)) ∧
    (∀ s ∈ st.streams, s.id ≠ e0.aggregateID → s ∈ st'.streams) ∧
    (∃ lastE,
      (ModelB.assignPositions st.allPosition 0
        ((e0 :: rest).map ModelB.newEvt)).getLast? = some lastE ∧
      lastE.aggregateID = e0.aggregateID ∧
      lastE.position = st.allPosition + ((e0 :: rest).length : Int) ∧
      lastE.version = ov + ((e0 :: rest).length : Int)) := by
  cases hval : ModelB.saveValidate e0.aggregateID ov 0 (e0 :: rest) with
  | some err =>
    have hbad : ModelB.Save st (e0 :: rest) ov = (st, some err) := by
      simp only [ModelB.Save, hval]
    rw [hbad] at hS
    simp at hS
  | none =>
    cases htx : ModelB.saveTx st ((e0 :: rest).map ModelB.newEvt) ov with
    | error e =>
      have hbad : ModelB.Save st (e0 :: rest) ov =
          (st, some (.couldNotSaveEvents e)) := by
        simp only [ModelB.Save, hval, htx]
      rw [hbad] at hS
      simp at hS
    | ok stc =>
      have hSave : ModelB.Save st (e0 :: rest) ov = (stc, none) := by
        simp only [ModelB.Save, hval, htx]
      rw [hSave] at hS
      have hst : stc = st' := by
        simpa using congrArg Prod.fst hS
      subst hst
      have hne : ((e0 :: rest).map ModelB.newEvt) ≠ [] := by simp
      obtain ⟨h1, h2, lastEvt, hlast, ⟨strm, hfs, hpos, hver⟩, hframe⟩ :=
        saveTx_ok_spec st _ ov stc hne htx
      -- the last event of the batch
      obtain ⟨oe, hoe1, hoe2, hoe3⟩ :=
        saveValidateB_getLast e0.aggregateID ov (e0 :: rest) 0 hval (by simp)
      obtain ⟨eL, heL1, heL2⟩ :=
        assignPositions_getLast st.allPosition ((e0 :: rest).map ModelB.newEvt)
          0 hne
      have hlastOrig := hlast
      have heL : eL = ModelB.newEvt oe := by
        rw [List.getLast?_map, hoe1] at heL1
        simpa using heL1.symm
      rw [heL2] at hlast
      have hlastEq : lastEvt =
          { ModelB.newEvt oe with
            position := st.allPosition +
              ((0 + ((e0 :: rest).map ModelB.newEvt).length : Nat) : Int)
            metadata := setMeta (ModelB.newEvt oe).metadata "position"
              (st.allPosition +
                ((0 + ((e0 :: rest).map ModelB.newEvt).length : Nat) : Int)) } := by
      -- hlast : some {eL with ...} = some lastEvt
        rw [heL] at hlast
        simpa using hlast.symm
      have hAgg : lastEvt.aggregateID = e0.aggregateID := by
        rw [hlastEq]
        simpa [ModelB.newEvt] using hoe2
      have hPos : lastEvt.position = st.allPosition + ((e0 :: rest).length : Int) := by
        rw [hlastEq]
        simp
      have hVer : lastEvt.version = ov + ((e0 :: rest).length : Int) := by
        rw [hlastEq]
        show (ModelB.newEvt oe).version = _
        rw [show (ModelB.newEvt oe).version = oe.version from rfl, hoe3]
        simp
      refine ⟨rfl, by simpa using h1, h2, ⟨strm, ?_, ?_, ?_⟩, ?_,
        lastEvt, hlastOrig, hAgg, hPos, hVer⟩
      · rw [← hAgg]
        exact hfs
      · rw [hpos, hPos]
      · rw [hver, hVer]
      · intro s hs hne2
        exact hframe s hs (by rw [hAgg]; exact hne2)

end EventHorizon

namespace EventHorizon

/-! ### C2 — model B global positions -/

/-- C2 counterexample: model B accepts a `Save` whose `originalVersion`
is stale — `stB3` has stream 1 at version 3, yet `Save([e 2], 1)`
succeeds — and afterwards the stream-tracking record carries position 4
and version 2 while the stream's highest-versioned event (version 3)
sits at position 3, so the claim's final clause fails for this
successful save (the optimistic-concurrency gap on the stream upsert
that the spec itself flags). -/
theorem saveB_stale_highest_version_cex :
    (ModelB.Save Fix.stB3 [Fix.e 2] 1).2 = none ∧
    ModelB.findStream (ModelB.Save Fix.stB3 [Fix.e 2] 1).1.streams 1 =
      some ⟨1, 4, "A", 2, 7⟩ ∧
    ((ModelB.Save Fix.stB3 [Fix.e 2] 1).1.events.filter
      (fun e => e.aggregateID == 1)).map (fun e => (e.version, e.position)) =
      [(1, 1), (2, 2), (3, 3), (2, 4)] :=
  ⟨rfl, rfl, rfl⟩

/-- C2 as amended: for every successful model B `Save` of a non-empty
batch of `n` events, the global counter is incremented by `n`, its
pre-increment value is the base used to assign positions
`base+1 .. base+n` to the events in batch order, and each event's
position is mirrored into its metadata under `"position"`; provided
additionally that every already-stored event of the stream has version
at most `originalVersion` (model B performs no conditional version check
on the stream upsert, so a stale `originalVersion` can break this), the
stream-tracking record afterwards carries the position of the stream's
highest-versioned event. -/
theorem saveB_positions_spec (st : ModelB.Store) (e0 : Event)
    (rest : List Event) (ov : Int) (st' : ModelB.Store)
    (hS : ModelB.Save st (e0 :: rest) ov = (st', none)) :
    st'.allPosition = st.allPosition + ((e0 :: rest).length : Int) ∧
    (∃ newEvts, st'.events = st.events ++ newEvts ∧
      newEvts.length = (e0 :: rest).length ∧
      ∀ i, ∀ h : i < newEvts.length,
        (newEvts.get ⟨i, h⟩).position = st.allPosition + (i : Int) + 1 ∧
        (newEvts.get ⟨i, h⟩).version = ov + (i : Int) + 1 ∧
        lookupMeta (newEvts.get ⟨i, h⟩).metadata "position" =
          some (st.allPosition + (i : Int) + 1)) ∧
    ((∀ e ∈ st.events, e.aggregateID = e0.aggregateID → e.version ≤ ov) →
      ∃ strm, ModelB.findStream st'.streams e0.aggregateID = some strm ∧
      strm.position = st.allPosition + ((e0 :: rest).length : Int) ∧
      ∃ eMax ∈ st'.events, eMax.aggregateID = e0.aggregateID ∧
        eMax.position = strm.position ∧ eMax.version = strm.version ∧
        ∀ e' ∈ st'.events, e'.aggregateID = e0.aggregateID →
          e'.version ≤ eMax.version) := by
  obtain ⟨hval, hPos, hEvents, ⟨strm, hfs, hspos, hsver⟩, hframe,
    lastE, hlastE, hlAgg, hlPos, hlVer⟩ := saveB_ok_spec st e0 rest ov st' hS
  have hvalFacts := saveValidateB_none e0.aggregateID ov (e0 :: rest) 0 hval
  have hdbLen : ((e0 :: rest).map ModelB.newEvt).length = (e0 :: rest).length := by
    simp
  refine ⟨hPos,
    ⟨ModelB.assignPositions st.allPosition 0 ((e0 :: rest).map ModelB.newEvt),
      hEvents, ?_, ?_⟩, ?_⟩
  · rw [assignPositions_length, hdbLen]
  · intro i h
    have hi : i < ((e0 :: rest).map ModelB.newEvt).length := by
      rwa [assignPositions_length] at h
    have hi2 : i < (e0 :: rest).length := by rwa [hdbLen] at hi
    have hget := assignPositions_get st.allPosition
      ((e0 :: rest).map ModelB.newEvt) 0 i hi h
    have hdbGet : ((e0 :: rest).map ModelB.newEvt).get ⟨i, hi⟩ =
        ModelB.newEvt ((e0 :: rest).get ⟨i, hi2⟩) := by
      simp only [List.get_eq_getElem, List.getElem_map]
    refine ⟨?_, ?_, ?_⟩
    · rw [hget]; simp
    · rw [hget]
      show (((e0 :: rest).map ModelB.newEvt).get ⟨i, hi⟩).version = _
      rw [hdbGet]
      show ((e0 :: rest).get ⟨i, hi2⟩).version = _
      rw [(hvalFacts i hi2).2]
      simp
    · rw [hget]
      show lookupMeta (setMeta
        ((((e0 :: rest).map ModelB.newEvt).get ⟨i, hi⟩)).metadata
        "position" _) "position" = _
      rw [lookupMeta_setMeta]
      simp
  · intro hOld
    have hmem : lastE ∈
        ModelB.assignPositions st.allPosition 0 ((e0 :: rest).map ModelB.newEvt) :=
      List.mem_of_mem_getLast? hlastE
    refine ⟨strm, hfs, hspos,
      lastE, ?_, hlAgg, by rw [hlPos, hspos], by rw [hlVer, hsver], ?_⟩
    · rw [hEvents]
      exact List.mem_append_right _ hmem
    · intro e' he' hid'
      rw [hEvents] at he'
      have hlen0 : (0 : Int) ≤ ((e0 :: rest).length : Int) := Int.ofNat_nonneg _
      rcases List.mem_append.mp he' with hm | hm
      · have := hOld e' hm hid'
        rw [hlVer]
        omega
      · obtain ⟨i, hi, heq⟩ := mem_assignPositions st.allPosition
          ((e0 :: rest).map ModelB.newEvt) 0 e' hm
        have hi2 : i < (e0 :: rest).length := by rwa [hdbLen] at hi
        have hver' : e'.version = ov + (i : Int) + 1 := by
          rw [heq]
          show (((e0 :: rest).map ModelB.newEvt).get ⟨i, hi⟩).version = _
          have hdbGet : ((e0 :: rest).map ModelB.newEvt).get ⟨i, hi⟩ =
              ModelB.newEvt ((e0 :: rest).get ⟨i, hi2⟩) := by
            simp only [List.get_eq_getElem, List.getElem_map]
          rw [hdbGet]
          show ((e0 :: rest).get ⟨i, hi2⟩).version = _
          rw [(hvalFacts i hi2).2]
          simp
        rw [hver', hlVer]
        have : (i : Int) + 1 ≤ ((e0 :: rest).length : Int) := by
          exact_mod_cast hi2
        omega

/-- C2 witness: the amended statement at a concrete two-event save on a
fresh store, with the no-stale-versions proviso discharged. -/
theorem saveB_positions_spec_witness :
    Fix.stB2.allPosition =
      Fix.stB0.allPosition + (((Fix.e 1) :: [Fix.e 2]).length : Int) ∧
    ∃ strm, ModelB.findStream Fix.stB2.streams (Fix.e 1).aggregateID =
        some strm ∧
      strm.position =
        Fix.stB0.allPosition + (((Fix.e 1) :: [Fix.e 2]).length : Int) ∧
      ∃ eMax ∈ Fix.stB2.events, eMax.aggregateID = (Fix.e 1).aggregateID ∧
        eMax.position = strm.position ∧ eMax.version = strm.version ∧
        ∀ e' ∈ Fix.stB2.events, e'.aggregateID = (Fix.e 1).aggregateID →
          e'.version ≤ eMax.version := by
  have h := saveB_positions_spec Fix.stB0 (Fix.e 1) [Fix.e 2] 0 Fix.stB2 rfl
  exact ⟨h.1, h.2.2 (by simp [Fix.stB0])⟩

end EventHorizon

namespace EventHorizon

/-! ### C3 — all-or-nothing saves -/

/-- A model A `Save` that reports an error leaves the collection
untouched: every failing path returns before or instead of a write, and
the two writes (`InsertOne`, `UpdateOne`) are single-document atomic. -/
theorem saveA_error_unchanged (st : ModelA.Store) (evs : List Event)
    (ov : Int) (h : (ModelA.Save st evs ov).2.isSome = true) :
    (ModelA.Save st evs ov).1 = st := by
  cases evs with
  | nil => rfl
  | cons e0 rest =>
    cases hval : ModelA.saveValidate e0.aggregateID e0.aggregateType ov 0
        (e0 :: rest) with
    | some err => simp [ModelA.Save, hval]
    | none =>
      by_cases h0 : ov = 0
      · subst h0
        by_cases hany :
            (st.any (fun a => a.aggregateID == e0.aggregateID)) = true
        · simp [ModelA.Save, hval, hany]
        · have hanyF :
              (st.any (fun a => a.aggregateID == e0.aggregateID)) = false := by
            simpa using hany
          exfalso
          simp [ModelA.Save, hval, hanyF] at h
      · by_cases hany : (st.any (fun a =>
            a.aggregateID == e0.aggregateID && a.version == ov)) = true
        · exfalso
          simp [ModelA.Save, hval, h0, hany] at h
        · have hanyF : (st.any (fun a =>
              a.aggregateID == e0.aggregateID && a.version == ov)) = false := by
            simpa using hany
          simp [ModelA.Save, hval, h0, hanyF]

/-- A model B `Save` that reports an error leaves the store untouched:
precondition failures return before the transaction, and a transaction
abort rolls back the counter bump, the event inserts and the stream
upsert together (`WithTransaction` semantics). -/
theorem saveB_error_unchanged (st : ModelB.Store) (evs : List Event)
    (ov : Int) (h : (ModelB.Save st evs ov).2.isSome = true) :
    (ModelB.Save st evs ov).1 = st := by
  cases evs with
  | nil => rfl
  | cons e0 rest =>
    cases hval : ModelB.saveValidate e0.aggregateID ov 0 (e0 :: rest) with
    | some err => simp [ModelB.Save, hval]
    | none =>
      cases htx : ModelB.saveTx st ((e0 :: rest).map ModelB.newEvt) ov with
      | error e =>
        have hbad : ModelB.Save st (e0 :: rest) ov =
            (st, some (.couldNotSaveEvents e)) := by
          simp only [ModelB.Save, hval, htx]
        rw [hbad]
      | ok stc =>
        exfalso
        have hbad : ModelB.Save st (e0 :: rest) ov = (stc, none) := by
          simp only [ModelB.Save, hval, htx]
        rw [hbad] at h
        simp at h

/-- A successful model A `Save` leaves the stream's document holding the
batch as a suffix, with the version advanced to
`originalVersion + batch size`. -/
theorem saveA_ok_spec (st : ModelA.Store) (e0 : Event) (rest : List Event)
    (ov : Int) (st' : ModelA.Store)
    (hnd : (st.map (fun a => a.aggregateID)).Nodup)
    (hS : ModelA.Save st (e0 :: rest) ov = (st', none)) :
    ∃ rec prior, ModelA.findOne st' e0.aggregateID = some rec ∧
      rec.version = ov + ((e0 :: rest).length : Int) ∧
      rec.events = prior ++ (e0 :: rest).map ModelA.newEvt := by
  cases hval : ModelA.saveValidate e0.aggregateID e0.aggregateType ov 0
      (e0 :: rest) with
  | some err =>
    have hbad : ModelA.Save st (e0 :: rest) ov = (st, some err) := by
      simp [ModelA.Save, hval]
    rw [hbad] at hS
    simp at hS
  | none =>
    by_cases h0 : ov = 0
    · subst h0
      by_cases hany :
          (st.any (fun a => a.aggregateID == e0.aggregateID)) = true
      · have hbad : ModelA.Save st (e0 :: rest) 0 =
            (st, some Err.couldNotInsert) := by
          simp [ModelA.Save, hval, hany]
        rw [hbad] at hS
        simp at hS
      · have hanyF :
            (st.any (fun a => a.aggregateID == e0.aggregateID)) = false := by
          simpa using hany
        have hSave : ModelA.Save st (e0 :: rest) 0 =
            (st ++ [{ aggregateID := e0.aggregateID
                      version := ((e0 :: rest).length : Int)
                      events := (e0 :: rest).map ModelA.newEvt }], none) := by
          simp [ModelA.Save, hval, hanyF]
        rw [hSave] at hS
        injection hS with hst hnone2
        subst hst
        refine ⟨⟨e0.aggregateID, ((e0 :: rest).length : Int), (e0 :: rest).map ModelA.newEvt⟩, [], ?_, by simp, by simp⟩
        unfold ModelA.findOne
        rw [List.find?_append,
          List.find?_eq_none.mpr (List.any_eq_false.mp hanyF),
          Option.none_or]
        simp
    · by_cases hany : (st.any (fun a =>
          a.aggregateID == e0.aggregateID && a.version == ov)) = true
      · obtain ⟨a, hamem, hap⟩ := List.any_eq_true.mp hany
        simp only [Bool.and_eq_true] at hap
        have haagg : a.aggregateID = e0.aggregateID := by
          simpa using hap.1
        have haver : a.version = ov := by simpa using hap.2
        have hsome :
            (st.find? (fun x => x.aggregateID == e0.aggregateID)).isSome = true :=
          List.find?_isSome.mpr ⟨a, hamem, by simpa using haagg⟩
        rcases Option.isSome_iff_exists.mp hsome with ⟨rec0, hrec0⟩
        have hrec0' : ModelA.findOne st e0.aggregateID = some rec0 := hrec0
        have hrec0agg : rec0.aggregateID = e0.aggregateID := by
          simpa using List.find?_some hrec0
        have heq : a = rec0 :=
          List.inj_on_of_nodup_map hnd hamem
            (List.mem_of_find?_eq_some hrec0) (by rw [haagg, hrec0agg])
        have hrec0ver : rec0.version = ov := by rw [← heq]; exact haver
        have hupd := findOne_updateFirst_nodup e0.aggregateID ov
          (fun a => { a with
            version := a.version + ((e0 :: rest).length : Int)
            events := a.events ++ (e0 :: rest).map ModelA.newEvt })
          (fun a => rfl) st hnd rec0 hrec0' hrec0ver
        have hSave : ModelA.Save st (e0 :: rest) ov =
            (updateFirst
              (fun a => a.aggregateID == e0.aggregateID && a.version == ov)
              (fun a => { a with
                version := a.version + ((e0 :: rest).length : Int)
                events := a.events ++ (e0 :: rest).map ModelA.newEvt })
              st, none) := by
          simp [ModelA.Save, hval, h0, hany]
        rw [hSave] at hS
        injection hS with hst hnone2
        subst hst
        refine ⟨_, rec0.events, hupd, ?_, rfl⟩
        show rec0.version + ((e0 :: rest).length : Int) =
          ov + ((e0 :: rest).length : Int)
        rw [hrec0ver]
      · have hanyF : (st.any (fun a =>
            a.aggregateID == e0.aggregateID && a.version == ov)) = false := by
          simpa using hany
        have hbad : ModelA.Save st (e0 :: rest) ov =
            (st, some Err.eventConflictFromOtherSave) := by
          simp [ModelA.Save, hval, h0, hanyF]
        rw [hbad] at hS
        simp at hS

end EventHorizon

namespace EventHorizon

/-- C3: every `Save` is all-or-nothing in both models — any error
outcome leaves the store exactly as it was (in model B the counter bump,
the event inserts and the stream upsert roll back together with the
aborted transaction), while a success records the whole batch: in model
B the counter advances by the batch size and the appended records are
exactly the batch's events — element `i` carrying position `base+i+1`
(also mirrored in its metadata), version `originalVersion+i+1`, and the
original envelope and payload — with the stream document at the new
version and last position; in model A the stream document holds the
batch as a suffix at version `originalVersion + batch size`. -/
theorem save_all_or_nothing (stA : ModelA.Store) (stB : ModelB.Store)
    (evs : List Event) (ov : Int) :
    ((ModelA.Save stA evs ov).2.isSome = true →
      (ModelA.Save stA evs ov).1 = stA) ∧
    ((ModelB.Save stB evs ov).2.isSome = true →
      (ModelB.Save stB evs ov).1 = stB) ∧
    (∀ e0 rest stB', evs = e0 :: rest →
      ModelB.Save stB evs ov = (stB', none) →
      stB'.allPosition = stB.allPosition + (evs.length : Int) ∧
      (∃ newEvts, stB'.events = stB.events ++ newEvts ∧
        newEvts.length = evs.length ∧
        ∀ i, ∀ h : i < newEvts.length, ∀ h2 : i < evs.length,
          (newEvts.get ⟨i, h⟩).position = stB.allPosition + (i : Int) + 1 ∧
          (newEvts.get ⟨i, h⟩).version = ov + (i : Int) + 1 ∧
          (newEvts.get ⟨i, h⟩).eventType = (evs.get ⟨i, h2⟩).eventType ∧
          (newEvts.get ⟨i, h⟩).rawData = (evs.get ⟨i, h2⟩).data ∧
          (newEvts.get ⟨i, h⟩).timestamp = (evs.get ⟨i, h2⟩).timestamp ∧
          (newEvts.get ⟨i, h⟩).aggregateType = (evs.get ⟨i, h2⟩).aggregateType ∧
          (newEvts.get ⟨i, h⟩).aggregateID = (evs.get ⟨i, h2⟩).aggregateID ∧
          (newEvts.get ⟨i, h⟩).metadata = setMeta (evs.get ⟨i, h2⟩).metadata
            "position" (stB.allPosition + (i : Int) + 1) ∧
          lookupMeta (newEvts.get ⟨i, h⟩).metadata "position" =
            some (stB.allPosition + (i : Int) + 1)) ∧
      ∃ strm, ModelB.findStream stB'.streams e0.aggregateID = some strm ∧
        strm.version = ov + (evs.length : Int) ∧
        strm.position = stB.allPosition + (evs.length : Int)) ∧
    (∀ e0 rest stA', evs = e0 :: rest →
      (stA.map (fun a => a.aggregateID)).Nodup →
      ModelA.Save stA evs ov = (stA', none) →
      ∃ rec prior, ModelA.findOne stA' e0.aggregateID = some rec ∧
        rec.version = ov + (evs.length : Int) ∧
        rec.events = prior ++ evs.map ModelA.newEvt) := by
  refine ⟨saveA_error_unchanged stA evs ov, saveB_error_unchanged stB evs ov,
    ?_, ?_⟩
  · intro e0 rest stB' hevs hok
    subst hevs
    obtain ⟨hval, h1, h2, ⟨strm, hfs, hspos, hsver⟩, -, -⟩ :=
      saveB_ok_spec stB e0 rest ov stB' hok
    have hvalFacts := saveValidateB_none e0.aggregateID ov (e0 :: rest) 0 hval
    have hdbLen : ((e0 :: rest).map ModelB.newEvt).length =
        (e0 :: rest).length := by simp
    refine ⟨h1, ⟨_, h2, ?_, ?_⟩, strm, hfs, hsver, hspos⟩
    · rw [assignPositions_length, hdbLen]
    · intro i h h2i
      have hi : i < ((e0 :: rest).map ModelB.newEvt).length := by
        rwa [assignPositions_length] at h
      have hget := assignPositions_get stB.allPosition
        ((e0 :: rest).map ModelB.newEvt) 0 i hi h
      have hdbGet : ((e0 :: rest).map ModelB.newEvt).get ⟨i, hi⟩ =
          ModelB.newEvt ((e0 :: rest).get ⟨i, h2i⟩) := by
        simp only [List.get_eq_getElem, List.getElem_map]
      have hcast : ((0 + i : Nat) : Int) = (i : Int) := by simp
      refine ⟨?_, ?_, ?_, ?_, ?_, ?_, ?_, ?_, ?_⟩
      · rw [hget]; simp
      · rw [hget]
        show (((e0 :: rest).map ModelB.newEvt).get ⟨i, hi⟩).version = _
        rw [hdbGet]
        show ((e0 :: rest).get ⟨i, h2i⟩).version = _
        rw [(hvalFacts i h2i).2]
        simp
      · rw [hget]
        show (((e0 :: rest).map ModelB.newEvt).get ⟨i, hi⟩).eventType = _
        rw [hdbGet]
        rfl
      · rw [hget]
        show (((e0 :: rest).map ModelB.newEvt).get ⟨i, hi⟩).rawData = _
        rw [hdbGet]
        rfl
      · rw [hget]
        show (((e0 :: rest).map ModelB.newEvt).get ⟨i, hi⟩).timestamp = _
        rw [hdbGet]
        rfl
      · rw [hget]
        show (((e0 :: rest).map ModelB.newEvt).get ⟨i, hi⟩).aggregateType = _
        rw [hdbGet]
        rfl
      · rw [hget]
        show (((e0 :: rest).map ModelB.newEvt).get ⟨i, hi⟩).aggregateID = _
        rw [hdbGet]
        rfl
      · rw [hget, hcast, hdbGet]
        rfl
      · rw [hget]
        show lookupMeta (setMeta
          ((((e0 :: rest).map ModelB.newEvt).get ⟨i, hi⟩)).metadata
          "position" _) "position" = _
        rw [lookupMeta_setMeta]
        simp
  · intro e0 rest stA' hevs hnd hok
    subst hevs
    exact saveA_ok_spec stA e0 rest ov stA' hnd hok

/-- C3 witness: the statement exercised at a failing conditional update
(version conflict), a failing model B insert (duplicate stream), and
successful saves in both models. -/
theorem save_all_or_nothing_witness :
    (ModelA.Save Fix.stA2 [Fix.e 2] 1).1 = Fix.stA2 ∧
    (ModelB.Save Fix.stB2 [Fix.e 1] 0).1 = Fix.stB2 ∧
    Fix.stB2.allPosition =
      Fix.stB0.allPosition + (([Fix.e 1, Fix.e 2] : List Event).length : Int) ∧
    ∃ rec prior, ModelA.findOne Fix.stA2 (Fix.e 1).aggregateID = some rec ∧
      rec.version = 0 + (([Fix.e 1, Fix.e 2] : List Event).length : Int) ∧
      rec.events = prior ++ ([Fix.e 1, Fix.e 2] : List Event).map ModelA.newEvt := by
  have hA := save_all_or_nothing Fix.stA2 Fix.stB2 [Fix.e 2] 1
  have hB := save_all_or_nothing Fix.stA2 Fix.stB2 [Fix.e 1] 0
  have hOk := save_all_or_nothing [] Fix.stB0 [Fix.e 1, Fix.e 2] 0
  exact ⟨hA.1 rfl, hB.2.1 rfl,
    (hOk.2.2.1 (Fix.e 1) [Fix.e 2] Fix.stB2 rfl rfl).1,
    hOk.2.2.2 (Fix.e 1) [Fix.e 2] Fix.stA2 rfl (by decide) rfl⟩

end EventHorizon


namespace EventHorizon

/-! ### C7 — model B `Replace` -/

/-- Filtering commutes with a first-match replacement when the
replacement predicate refines the filter and the replacement passes the
filter. -/
theorem filter_replaceFirst (p q : α → Bool) (y : α)
    (hpq : ∀ x, p x = true → q x = true) (hy : q y = true) :
    ∀ l : List α,
      (replaceFirst p y l).filter q = replaceFirst p y (l.filter q) := by
  intro l
  induction l with
  | nil => rfl
  | cons x xs ih =>
    by_cases hx : p x = true
    · have hqx := hpq x hx
      have h1 : replaceFirst p y (x :: xs) = y :: xs := by
        simp [replaceFirst, hx]
      rw [h1, List.filter_cons_of_pos hy, List.filter_cons_of_pos hqx]
      simp [replaceFirst, hx]
    · have h1 : replaceFirst p y (x :: xs) = x :: replaceFirst p y xs := by
        simp [replaceFirst, hx]
      rw [h1]
      by_cases hqx : q x = true
      · rw [List.filter_cons_of_pos hqx, List.filter_cons_of_pos hqx, ih]
        simp [replaceFirst, hx]
      · rw [List.filter_cons_of_neg (by simpa using hqx),
          List.filter_cons_of_neg (by simpa using hqx)]
        exact ih

end EventHorizon

namespace EventHorizon

/-- C7: model B `Replace` fails with `eh.ErrAggregateNotFound` when the
stream has no events, fails with `eh.ErrEventNotFound` when the stream
exists but the version does not, and on success replaces exactly the
record at `(stream id, version)`, copying the original record's position
forward (and mirroring it into the metadata), so a subsequent `Load`
returns the same number of events with unchanged versions, the
non-replaced events untouched, and — when the replacement carries the
same envelope — only the payload of the replaced event differing. -/
theorem replaceB_spec (st : ModelB.Store) (event : Event) :
    ((st.events.filter (fun e => e.aggregateID == event.aggregateID)).length = 0 →
      ModelB.Replace st event = (st, some Err.aggregateNotFound)) ∧
    ((st.events.filter (fun e => e.aggregateID == event.aggregateID)).length ≠ 0 →
      st.events.find? (fun x =>
        x.aggregateID == event.aggregateID && x.version == event.version) = none →
      ModelB.Replace st event = (st, some Err.eventNotFound)) ∧
    (∀ old, st.events.find? (fun x =>
        x.aggregateID == event.aggregateID && x.version == event.version) = some old →
      ∃ st', ModelB.Replace st event = (st', none) ∧
        st'.allPosition = st.allPosition ∧
        st'.streams = st.streams ∧
        st'.events.length = st.events.length ∧
        (∃ e', st'.events.find? (fun x =>
            x.aggregateID == event.aggregateID && x.version == event.version) = some e' ∧
          e'.position = old.position ∧
          lookupMeta e'.metadata "position" = some old.position ∧
          e'.rawData = event.data ∧
          (event.eventType = old.eventType → event.timestamp = old.timestamp →
            event.aggregateType = old.aggregateType →
            event.metadata = old.metadata →
            lookupMeta old.metadata "position" = some old.position →
            ModelB.decodeEvt e' = { ModelB.decodeEvt old with data := event.data })) ∧
        (∀ l l', ModelB.Load st event.aggregateID = .ok l →
          ModelB.Load st' event.aggregateID = .ok l' →
          l'.length = l.length ∧
          l'.map (fun e => e.version) = l.map (fun e => e.version) ∧
          ∀ pr ∈ l.zip l', pr.1.version ≠ event.version → pr.2 = pr.1)) := by
  refine ⟨?_, ?_, ?_⟩
  · intro hlen
    simp only [ModelB.Replace]
    rw [if_pos hlen]
  · intro hlen hnone
    simp only [ModelB.Replace]
    rw [if_neg hlen, hnone]
  · intro old hfound
    have hmem := List.mem_of_find?_eq_some hfound
    have hp := List.find?_some hfound
    simp only [Bool.and_eq_true] at hp
    have haggEq : old.aggregateID = event.aggregateID := by simpa using hp.1
    have hverEq : old.version = event.version := by simpa using hp.2
    have hlen : ¬((st.events.filter
        (fun e => e.aggregateID == event.aggregateID)).length = 0) := by
      have hmf : old ∈ st.events.filter
          (fun e => e.aggregateID == event.aggregateID) :=
        List.mem_filter.mpr ⟨hmem, hp.1⟩
      intro h0
      rw [List.length_eq_zero.mp h0] at hmf
      cases hmf
    have hRep : ModelB.Replace st event =
        ((⟨st.allPosition, replaceFirst (fun x =>
            x.aggregateID == event.aggregateID && x.version == event.version)
          (⟨old.position, event.eventType, event.timestamp,
            event.aggregateType, event.aggregateID, event.version, event.data,
            setMeta event.metadata "position" old.position⟩ : ModelB.Evt)
          st.events, st.streams⟩ : ModelB.Store), none) := by
      simp only [ModelB.Replace]
      rw [if_neg hlen, hfound]
      rfl
    refine ⟨_, hRep, rfl, rfl, replaceFirst_length _ _ _, ⟨⟨old.position,
      event.eventType, event.timestamp, event.aggregateType,
      event.aggregateID, event.version, event.data,
      setMeta event.metadata "position" old.position⟩, ?_, rfl,
      lookupMeta_setMeta _ _ _, rfl, ?_⟩, ?_⟩
    · exact find?_replaceFirst _ _ (by simp) st.events (by rw [hfound]; rfl)
    · intro hty hts hat hmd hpm
      have hsm : setMeta event.metadata "position" old.position =
          old.metadata := by
        rw [hmd]
        exact setMeta_self _ _ old.metadata hpm
      simp only [ModelB.decodeEvt, hty, hts, hat, hsm, ← haggEq, ← hverEq]
    · intro l l' hl hl'
      have hlv : l = (st.events.filter
          (fun e => e.aggregateID == event.aggregateID)).map ModelB.decodeEvt := by
        unfold ModelB.Load at hl
        cases hl
        rfl
      have hl'v : l' = ((replaceFirst (fun x =>
          x.aggregateID == event.aggregateID && x.version == event.version)
          (⟨old.position, event.eventType, event.timestamp,
            event.aggregateType, event.aggregateID, event.version, event.data,
            setMeta event.metadata "position" old.position⟩ : ModelB.Evt)
          st.events).filter
          (fun e => e.aggregateID == event.aggregateID)).map ModelB.decodeEvt := by
        unfold ModelB.Load at hl'
        cases hl'
        rfl
      have hcomm := filter_replaceFirst (fun x =>
          x.aggregateID == event.aggregateID && x.version == event.version)
        (fun e => e.aggregateID == event.aggregateID)
        (⟨old.position, event.eventType, event.timestamp,
          event.aggregateType, event.aggregateID, event.version, event.data,
          setMeta event.metadata "position" old.position⟩ : ModelB.Evt)
        (fun x hx => by
          simp only [Bool.and_eq_true] at hx
          exact hx.1)
        (by simp) st.events
      refine ⟨?_, ?_, ?_⟩
      · rw [hlv, hl'v, hcomm]
        simp [replaceFirst_length]
      · rw [hlv, hl'v, hcomm, List.map_map, List.map_map]
        refine map_replaceFirst _ _ _ ?_ _
        intro x hx
        simp only [Bool.and_eq_true] at hx
        have hxv : x.version = event.version := by simpa using hx.2
        show (ModelB.decodeEvt x).version = _
        simp [ModelB.decodeEvt, hxv]
      · intro pr hpr hne
        rw [hlv, hl'v, hcomm, List.zip_map] at hpr
        rcases List.mem_map.mp hpr with ⟨⟨a, b⟩, hab, hmap⟩
        have hpa : (fun x =>
            x.aggregateID == event.aggregateID && x.version == event.version) a
            = false := by
          by_contra hc
          have hc' : (a.aggregateID == event.aggregateID &&
              a.version == event.version) = true := by simpa using hc
          simp only [Bool.and_eq_true] at hc'
          have hav : a.version = event.version := by simpa using hc'.2
          apply hne
          rw [← hmap]
          simpa [ModelB.decodeEvt] using hav
        have hba : b = a := zip_replaceFirst _ _ _ (a, b) hab hpa
        subst hba
        rw [← hmap]
        rfl

/-- C7 witness: the statement exercised at a missing stream, a missing
version, and a successful payload replacement on `stB2`. -/
theorem replaceB_spec_witness :
    (ModelB.Replace Fix.stB2 Fix.e2q).2 = none ∧
    ModelB.Replace Fix.stB0 Fix.e2q = (Fix.stB0, some Err.aggregateNotFound) ∧
    ModelB.Replace Fix.stB2 (Fix.e 3) = (Fix.stB2, some Err.eventNotFound) := by
  have h := replaceB_spec Fix.stB2 Fix.e2q
  have h0 := replaceB_spec Fix.stB0 Fix.e2q
  have h3 := replaceB_spec Fix.stB2 (Fix.e 3)
  refine ⟨?_, h0.1 rfl, h3.2.1 (by decide) rfl⟩
  rcases h.2.2 _ rfl with ⟨st', hst, -⟩
  rw [hst]

end EventHorizon
